import Mathlib

/-!
Verification development for the PointNuker point-cloud cleaner
(`PointNuker.py` GUI application and `pointnuker_cli.py` headless CLI).

Shallow embedding conventions:
* `float64` coordinates and parameters are modelled as rationals (`ℚ`):
  the source only compares, multiplies and averages finite float values.
* numpy `int64` index arrays are modelled as `List Nat`: every index array
  in the program starts as `np.arange(n)` and is only ever subsetted by
  fancy indexing, so all values stay nonnegative.
* numpy fancy indexing `a[sel]` is `gather a sel`; `np.where(mask)[0]` is
  `idxsWhere`; `np.unique` (sorted distinct values) is `npUnique`;
  `np.argmax` (first index of the maximum) is folded into `argmaxPairs`.
* the Open3D library calls (`remove_radius_outlier`,
  `remove_statistical_outlier`, `cluster_dbscan`, `voxel_down_sample`,
  KDTree queries) are external black boxes: they are modelled as the
  fields of a `FilterEnv` parameter.  Per the Open3D contract,
  `remove_*_outlier` returns the downselected cloud together with the
  ascending list of kept indices; `FilterEnv.Wf` records exactly the
  library guarantees the program relies on.
* GUI widgets, message boxes, file dialogs and actual file I/O are out of
  scope; log/print side effects are modelled as a `List LogEv` of
  structured events, and "save" operations return the rows they would
  write instead of writing a file.
-/

namespace PointNuker

/-- Coordinate triple of one point (float64 x, y, z modelled as ℚ). -/
abbrev Point : Type := ℚ × ℚ × ℚ

/-- Fancy indexing `xs[sel]` of numpy: the elements of `xs` at the
positions listed in `sel`, in the order of `sel` (out-of-range positions
cannot occur in the program and are dropped). -/
def gather {α : Type} (xs : List α) (sel : List Nat) : List α :=
  sel.filterMap (fun i => xs.get? i)

/-- Model of `np.where(mask)[0]` for a pointwise predicate: the ascending
list of positions of `xs` whose element satisfies `p`. -/
def idxsWhere {α : Type} (p : α → Bool) (xs : List α) : List Nat :=
  (List.range xs.length).filter (fun i => ((xs.get? i).map p).getD false)

/-- Insertion into a sorted list, keeping duplicates (used to model
`ndarray.sort()` and `np.median`). -/
def insOrd {α : Type} [LinearOrder α] (x : α) : List α → List α
  | [] => [x]
  | y :: ys => if x ≤ y then x :: y :: ys else y :: insOrd x ys

/-- Ascending sort (model of numpy in-place `sort`). -/
def sortAsc {α : Type} [LinearOrder α] (l : List α) : List α :=
  l.foldr insOrd []

/-- Insertion into a sorted duplicate-free list, dropping duplicates. -/
def insNoDup (x : Int) : List Int → List Int
  | [] => [x]
  | y :: ys =>
    if x < y then x :: y :: ys
    else if x = y then y :: ys
    else y :: insNoDup x ys

/-- Model of `np.unique`: the sorted list of the distinct values of `l`
(characterised below as strictly sorted with the same membership). -/
def npUnique (l : List Int) : List Int := l.foldr insNoDup []

/-- Running maximum of `x :: xs` (models `ndarray.max()` on a nonempty
array). -/
def listMax (x : Int) : List Int → Int
  | [] => x
  | y :: ys => listMax (max x y) ys

/-- Left fold keeping the first pair with the largest second component;
`argmaxPairs p ps` models `unique[np.argmax(counts)]` applied to the
label/count pairs `p :: ps` (`np.argmax` returns the first maximum). -/
def argmaxPairs (p : Int × Nat) : List (Int × Nat) → Int × Nat
  | [] => p
  | q :: qs => argmaxPairs (if p.2 < q.2 then q else p) qs

/-- Winner among the non-noise labels `nn`:
`unique, counts = np.unique(nn, return_counts=True);
unique[np.argmax(counts)]`. -/
def bestOf (nn : List Int) : Int :=
  match (npUnique nn).map (fun l => (l, nn.count l)) with
  | [] => 0
  | p :: ps => (argmaxPairs p ps).1

/-- Selection of the winning DBSCAN label, shared verbatim by
`dbscan_largest_cluster` (CLI), `_keep_largest_cluster_in_current` and the
DBSCAN block of `_clean_proc`: apply `bestOf` to `labels[labels >= 0]`. -/
def bestLabel (labels : List Int) : Int :=
  bestOf (labels.filter (fun l => decide (0 ≤ l)))

/-- Model of `np.median` on a nonempty list: middle element of the sorted
list, or the mean of the two middle elements for even length. -/
def median (xs : List ℚ) : ℚ :=
  let s := sortAsc xs
  let n := s.length
  if n % 2 = 1 then s.getD (n / 2) 0
  else (s.getD (n / 2 - 1) 0 + s.getD (n / 2) 0) / 2

/-! ### Basic lemmas about the numpy primitives -/

theorem gather_nil {α : Type} (sel : List Nat) : gather ([] : List α) sel = [] := by
  induction sel with
  | nil => rfl
  | cons i t ih => simp [gather] at ih ⊢

theorem gather_cons_pos {α : Type} (x : α) (xs : List α) (sel : List Nat)
    (h : ∀ i ∈ sel, 0 < i) :
    gather (x :: xs) sel = gather xs (sel.map (· - 1)) := by
  induction sel with
  | nil => rfl
  | cons i t ih =>
    have hi : 0 < i := h i (List.mem_cons_self i t)
    obtain ⟨j, rfl⟩ : ∃ j, i = j + 1 := ⟨i - 1, by omega⟩
    have ht := ih (fun k hk => h k (List.mem_cons_of_mem _ hk))
    have lhs : gather (x :: xs) ((j + 1) :: t)
        = match xs.get? j with
          | none => gather (x :: xs) t
          | some b => b :: gather (x :: xs) t := rfl
    have rhs : gather xs (((j + 1) :: t).map (· - 1))
        = match xs.get? j with
          | none => gather xs (t.map (· - 1))
          | some b => b :: gather xs (t.map (· - 1)) := rfl
    rw [lhs, rhs, ht]

theorem pairwise_map_pred {sel : List Nat} (hpos : ∀ i ∈ sel, 0 < i)
    (h : sel.Pairwise (· < ·)) : (sel.map (· - 1)).Pairwise (· < ·) := by
  rw [List.pairwise_map]
  refine h.imp_of_mem ?_
  intro a b ha hb hab
  have := hpos a ha
  omega

theorem gather_sublist {α : Type} (xs : List α) (sel : List Nat)
    (h : sel.Pairwise (· < ·)) : List.Sublist (gather xs sel) xs := by
  induction xs generalizing sel with
  | nil => rw [gather_nil]
  | cons x xs ih =>
    match sel with
    | [] => exact List.nil_sublist _
    | i :: t =>
      have ht : t.Pairwise (· < ·) := h.of_cons
      have hall : ∀ j ∈ t, i < j := fun j hj => List.rel_of_pairwise_cons h hj
      match i with
      | 0 =>
        have hpos : ∀ j ∈ t, 0 < j := fun j hj => hall j hj
        have heq : gather (x :: xs) (0 :: t) = x :: gather (x :: xs) t := rfl
        rw [heq, gather_cons_pos x xs t hpos]
        exact List.Sublist.cons₂ x (ih _ (pairwise_map_pred hpos ht))
      | j + 1 =>
        have hpos : ∀ k ∈ (j + 1) :: t, 0 < k := by
          intro k hk
          rcases List.mem_cons.mp hk with rfl | hk
          · omega
          · have := hall k hk; omega
        rw [gather_cons_pos x xs _ hpos]
        refine List.Sublist.cons x (ih _ ?_)
        exact pairwise_map_pred hpos h

theorem gather_length {α : Type} (xs : List α) (sel : List Nat)
    (h : ∀ i ∈ sel, i < xs.length) : (gather xs sel).length = sel.length := by
  induction sel with
  | nil => rfl
  | cons i t ih =>
    have hi : i < xs.length := h i (List.mem_cons_self i t)
    obtain ⟨a, ha⟩ : ∃ a, xs.get? i = some a := ⟨_, List.get?_eq_get hi⟩
    have heq : gather xs (i :: t)
        = match xs.get? i with
          | none => gather xs t
          | some b => b :: gather xs t := rfl
    rw [heq, ha]
    show (gather xs t).length + 1 = t.length + 1
    rw [ih (fun j hj => h j (List.mem_cons_of_mem _ hj))]

theorem gather_ne_nil {α : Type} (xs : List α) (sel : List Nat)
    (hs : sel ≠ []) (h : ∀ i ∈ sel, i < xs.length) : gather xs sel ≠ [] := by
  intro hcon
  have := gather_length xs sel h
  rw [hcon] at this
  exact hs (List.eq_nil_of_length_eq_zero this.symm)

theorem idxsWhere_pairwise {α : Type} (p : α → Bool) (xs : List α) :
    (idxsWhere p xs).Pairwise (· < ·) :=
  (List.pairwise_lt_range xs.length).filter _

theorem idxsWhere_bounded {α : Type} (p : α → Bool) (xs : List α) :
    ∀ i ∈ idxsWhere p xs, i < xs.length := by
  intro i hi
  have := List.mem_of_mem_filter hi
  simpa using this

theorem mem_idxsWhere {α : Type} {p : α → Bool} {xs : List α} {i : Nat} (a : α)
    (ha : xs.get? i = some a) (hp : p a = true) : i ∈ idxsWhere p xs := by
  have hlen : i < xs.length := by
    by_contra hge
    rw [List.get?_eq_none.mpr (by omega)] at ha
    exact Option.noConfusion ha
  simp only [idxsWhere, List.mem_filter, List.mem_range]
  refine ⟨hlen, ?_⟩
  rw [ha]
  simpa using hp

theorem idxsWhere_ne_nil_of_mem {α : Type} {p : α → Bool} {xs : List α} {a : α}
    (ha : a ∈ xs) (hp : p a = true) : idxsWhere p xs ≠ [] := by
  obtain ⟨i, hi⟩ := List.mem_iff_get.mp ha
  intro hcon
  have : (i : Nat) ∈ idxsWhere p xs :=
    mem_idxsWhere a (by rw [List.get?_eq_get i.isLt, hi]) hp
  simp [hcon] at this

theorem insOrd_of_lt {α : Type} [LinearOrder α] (x : α) (l : List α)
    (h : ∀ y ∈ l, x < y) : insOrd x l = x :: l := by
  cases l with
  | nil => rfl
  | cons y ys => simp [insOrd, le_of_lt (h y (List.mem_cons_self y ys))]

/-- Sorting an already strictly increasing list is the identity. -/
theorem sortAsc_of_pairwise_lt {α : Type} [LinearOrder α] (l : List α)
    (h : l.Pairwise (· < ·)) : sortAsc l = l := by
  induction l with
  | nil => rfl
  | cons x xs ih =>
    have hxs := ih h.of_cons
    simp only [sortAsc, List.foldr_cons] at hxs ⊢
    rw [hxs]
    exact insOrd_of_lt x xs (fun y hy => List.rel_of_pairwise_cons h hy)

theorem mem_insNoDup (x a : Int) (l : List Int) :
    a ∈ insNoDup x l ↔ a = x ∨ a ∈ l := by
  induction l with
  | nil => simp [insNoDup]
  | cons y ys ih =>
    by_cases h1 : x < y
    · simp [insNoDup, h1]
    · by_cases h2 : x = y
      · subst h2
        have hins : insNoDup x (x :: ys) = x :: ys := by
          simp [insNoDup, h1]
        rw [hins]
        simp only [List.mem_cons]
        tauto
      · simp only [insNoDup, if_neg h1, if_neg h2, List.mem_cons, ih]
        tauto

theorem pairwise_insNoDup (x : Int) (l : List Int) (h : l.Pairwise (· < ·)) :
    (insNoDup x l).Pairwise (· < ·) := by
  induction l with
  | nil => simp [insNoDup]
  | cons y ys ih =>
    have hy : ∀ a ∈ ys, y < a := fun a ha => List.rel_of_pairwise_cons h ha
    by_cases h1 : x < y
    · simp only [insNoDup, if_pos h1]
      refine List.pairwise_cons.mpr ⟨?_, h⟩
      intro a ha
      rcases List.mem_cons.mp ha with rfl | ha
      · exact h1
      · exact lt_trans h1 (hy a ha)
    · by_cases h2 : x = y
      · simpa [insNoDup, h1, h2] using h
      · have hyx : y < x := by omega
        simp only [insNoDup, if_neg h1, if_neg h2]
        refine List.pairwise_cons.mpr ⟨?_, ih h.of_cons⟩
        intro a ha
        rcases (mem_insNoDup x a ys).mp ha with rfl | ha
        · exact hyx
        · exact hy a ha

theorem npUnique_pairwise (l : List Int) : (npUnique l).Pairwise (· < ·) := by
  induction l with
  | nil => simp [npUnique]
  | cons x xs ih => exact pairwise_insNoDup x _ ih

theorem mem_npUnique (a : Int) (l : List Int) : a ∈ npUnique l ↔ a ∈ l := by
  induction l with
  | nil => simp [npUnique]
  | cons x xs ih =>
    simp only [npUnique, List.foldr_cons] at ih ⊢
    rw [mem_insNoDup, ih, List.mem_cons]

theorem le_listMax (x : Int) (l : List Int) : ∀ a, a = x ∨ a ∈ l → a ≤ listMax x l := by
  induction l generalizing x with
  | nil =>
    rintro a (rfl | h)
    · exact le_refl _
    · simp at h
  | cons y ys ih =>
    rintro a (rfl | h)
    · show a ≤ listMax (max a y) ys
      exact (le_max_left a y).trans (ih (max a y) (max a y) (Or.inl rfl))
    · rcases List.mem_cons.mp h with rfl | h
      · show a ≤ listMax (max x a) ys
        exact (le_max_right x a).trans (ih (max x a) (max x a) (Or.inl rfl))
      · exact ih (max x y) a (Or.inr h)

theorem listMax_neg (x : Int) (l : List Int)
    (h : ∀ a, a = x ∨ a ∈ l → a < 0) : listMax x l < 0 := by
  induction l generalizing x with
  | nil => exact h x (Or.inl rfl)
  | cons y ys ih =>
    show listMax (max x y) ys < 0
    refine ih (max x y) ?_
    rintro a (rfl | ha)
    · have hx := h x (Or.inl rfl)
      have hy := h y (Or.inr (List.mem_cons_self y ys))
      omega
    · exact h a (Or.inr (List.mem_cons_of_mem y ha))

/-- Characterisation of `argmaxPairs` on a list whose labels (first
components) are strictly increasing: the result is a member of the list,
its count is maximal, and among pairs of maximal count it has the least
label — exactly the behaviour of `unique[np.argmax(counts)]`. -/
theorem argmaxPairs_spec (p : Int × Nat) (qs : List (Int × Nat))
    (h : (p :: qs).Pairwise (fun a b => a.1 < b.1)) :
    argmaxPairs p qs ∈ p :: qs
    ∧ (∀ x ∈ p :: qs, x.2 ≤ (argmaxPairs p qs).2)
    ∧ (∀ x ∈ p :: qs, x.2 = (argmaxPairs p qs).2 → (argmaxPairs p qs).1 ≤ x.1) := by
  induction qs generalizing p with
  | nil =>
    refine ⟨List.mem_cons_self p [], ?_, ?_⟩
    · intro x hx
      rcases List.mem_cons.mp hx with rfl | hx
      · exact le_refl _
      · simp at hx
    · intro x hx _
      rcases List.mem_cons.mp hx with rfl | hx
      · exact le_refl _
      · simp at hx
  | cons q qs ih =>
    have hpq : p.1 < q.1 := List.rel_of_pairwise_cons h (List.mem_cons_self q qs)
    have hpqs : ∀ b ∈ qs, p.1 < b.1 := fun b hb =>
      List.rel_of_pairwise_cons h (List.mem_cons_of_mem q hb)
    have hqs : qs.Pairwise (fun a b => a.1 < b.1) := h.of_cons.of_cons
    by_cases hc : p.2 < q.2
    · obtain ⟨ihm, ihmax, ihtie⟩ := ih q h.of_cons
      have step : argmaxPairs p (q :: qs) = argmaxPairs q qs := by
        show argmaxPairs (if p.2 < q.2 then q else p) qs = _
        rw [if_pos hc]
      rw [step]
      refine ⟨List.mem_cons_of_mem p ihm, ?_, ?_⟩
      · intro x hx
        rcases List.mem_cons.mp hx with rfl | hx
        · exact le_of_lt (lt_of_lt_of_le hc (ihmax q (List.mem_cons_self q qs)))
        · exact ihmax x hx
      · intro x hx heq
        rcases List.mem_cons.mp hx with rfl | hx
        · have hq2 : q.2 ≤ (argmaxPairs q qs).2 := ihmax q (List.mem_cons_self q qs)
          omega
        · exact ihtie x hx heq
    · have hpair : (p :: qs).Pairwise (fun a b => a.1 < b.1) :=
        List.pairwise_cons.mpr ⟨hpqs, hqs⟩
      obtain ⟨ihm, ihmax, ihtie⟩ := ih p hpair
      have step : argmaxPairs p (q :: qs) = argmaxPairs p qs := by
        show argmaxPairs (if p.2 < q.2 then q else p) qs = _
        rw [if_neg hc]
      rw [step]
      have hmem2 : argmaxPairs p qs ∈ p :: q :: qs := by
        rcases List.mem_cons.mp ihm with hm | hm
        · rw [hm]; exact List.mem_cons_self p _
        · exact List.mem_cons_of_mem p (List.mem_cons_of_mem q hm)
      refine ⟨hmem2, ?_, ?_⟩
      · intro x hx
        rcases List.mem_cons.mp hx with rfl | hx
        · exact ihmax x (List.mem_cons_self x qs)
        · rcases List.mem_cons.mp hx with rfl | hx
          · have hp2 : p.2 ≤ (argmaxPairs p qs).2 := ihmax p (List.mem_cons_self p qs)
            omega
          · exact ihmax x (List.mem_cons_of_mem p hx)
      · intro x hx heq
        rcases List.mem_cons.mp hx with rfl | hx
        · exact ihtie x (List.mem_cons_self x qs) heq
        · rcases List.mem_cons.mp hx with rfl | hx
          · rcases List.mem_cons.mp ihm with hm | hm
            · rw [hm]; exact le_of_lt hpq
            · have hp2 : p.2 ≤ (argmaxPairs p qs).2 := ihmax p (List.mem_cons_self p qs)
              have hpm : p.2 = (argmaxPairs p qs).2 := by omega
              have hle := ihtie p (List.mem_cons_self p qs) hpm
              exact hle.trans (le_of_lt hpq)
          · exact ihtie x (List.mem_cons_of_mem p hx) heq

/-! ### Pipeline data model

`PipeState` is the working state threaded through a clean run: the working
cloud `pcd` (Python `pcd`), the original-index mapping `idx` (Python
`idx_work` / `idx`), the `mapping_valid` flag (`self.mapping_valid_cleaned`
during `_clean_proc`), the completed-step counter (`steps_done`) and the
structured log.  Print/log side effects are modelled as `LogEv` events:
`stepRun t` is the `[STEP]` line announcing filter `t` (for the CLI, the
call of the filter function), `warnEmpty t` the `[WARN] ... Reverting`
line of a rejected step, `keptInfo t n` the kept-count report of an
applied step. -/

/-- Tags naming the five pipeline filters. -/
inductive StepTag
  | voxel
  | radius
  | stat
  | cluster
  | crop
  deriving DecidableEq

/-- Structured log events (progress-bar updates, point/bounds reports and
message-box text are not modelled). -/
inductive LogEv
  | stepRun (t : StepTag)
  | warnEmpty (t : StepTag)
  | keptInfo (t : StepTag) (n : Nat)
  | noClusters
  | allNoise
  | warnInvalidBounds
  | gsDisabledVoxel
  deriving DecidableEq

/-- Working state of one pipeline run. -/
structure PipeState where
  pcd : List Point
  idx : List Nat
  mapping_valid : Bool
  progress : Nat
  log : List LogEv
  deriving DecidableEq

/-- The Open3D library calls used by the program, as an abstract
environment.  `radiusSel pts nb r` is the index list `ind` returned by
`pcd.remove_radius_outlier(nb_points=nb, radius=r)` (the returned cloud is
the selection of `pts` at `ind`); `statSel` likewise for
`remove_statistical_outlier`; `dbscan pts eps minpts` is the per-point
label array of `pcd.cluster_dbscan`; `voxelDown pts v` is
`pcd.voxel_down_sample(voxel_size=v)`. -/
structure FilterEnv where
  voxelDown : List Point → ℚ → List Point
  radiusSel : List Point → Nat → ℚ → List Nat
  statSel : List Point → Nat → ℚ → List Nat
  dbscan : List Point → ℚ → Nat → List Int

/-- The documented Open3D guarantees the program relies on: the outlier
removers return an ascending list of valid indices into their input cloud,
`cluster_dbscan` returns one label per point, and voxel downsampling never
produces more points than it consumes. -/
def FilterEnv.Wf (env : FilterEnv) : Prop :=
  (∀ pts nb r, (env.radiusSel pts nb r).Pairwise (· < ·)
      ∧ ∀ i ∈ env.radiusSel pts nb r, i < pts.length)
  ∧ (∀ pts nb sd, (env.statSel pts nb sd).Pairwise (· < ·)
      ∧ ∀ i ∈ env.statSel pts nb sd, i < pts.length)
  ∧ (∀ pts e m, (env.dbscan pts e m).length = pts.length)
  ∧ (∀ pts v, (env.voxelDown pts v).length ≤ pts.length)

/-- Common shape of the radius/statistical/crop steps in both entry
points: given the list of locally kept indices, either roll back (empty
selection: state unchanged, warning logged) or subset cloud and index
mapping by the selection. -/
def selApply (t : StepTag) (sel : List Nat) (s : PipeState) : PipeState :=
  if sel = [] then
    { s with log := s.log ++ [.stepRun t, .warnEmpty t] }
  else
    { s with pcd := gather s.pcd sel, idx := gather s.idx sel,
             progress := s.progress + 1,
             log := s.log ++ [.stepRun t, .keptInfo t sel.length] }

/-- Voxel block of `_clean_proc` (step 1): on an empty result revert the
cloud (`idx_work` is never touched by this step), otherwise replace the
cloud and clear `mapping_valid`. -/
def voxelStep (env : FilterEnv) (vsize : ℚ) (s : PipeState) : PipeState :=
  let p2 := env.voxelDown s.pcd vsize
  if p2 = [] then
    { s with log := s.log ++ [.stepRun .voxel, .warnEmpty .voxel] }
  else
    { s with pcd := p2, mapping_valid := false, progress := s.progress + 1,
             log := s.log ++ [.stepRun .voxel, .keptInfo .voxel p2.length] }

/-- Radius-outlier block: `radius_outlier_removal` in the CLI and step 2 of
`_clean_proc` (identical logic: roll back iff `len(ind) == 0`, else
`idx = idx[ind]`). -/
def radiusStep (env : FilterEnv) (nb : Nat) (r : ℚ) (s : PipeState) : PipeState :=
  selApply .radius (env.radiusSel s.pcd nb r) s

/-- Statistical-outlier block: `statistical_outlier_removal` in the CLI and
step 3 of `_clean_proc`. -/
def statStep (env : FilterEnv) (nb : Nat) (sd : ℚ) (s : PipeState) : PipeState :=
  selApply .stat (env.statSel s.pcd nb sd) s

/-- Crop bounds (six floats). -/
structure Bounds where
  min_x : ℚ
  min_y : ℚ
  min_z : ℚ
  max_x : ℚ
  max_y : ℚ
  max_z : ℚ
  deriving DecidableEq

/-- The crop mask of `aabb_crop` / step 5 of `_clean_proc`: inclusive on
both ends on every axis. -/
def inBounds (b : Bounds) (p : Point) : Bool :=
  decide (b.min_x ≤ p.1) && decide (p.1 ≤ b.max_x)
  && decide (b.min_y ≤ p.2.1) && decide (p.2.1 ≤ b.max_y)
  && decide (b.min_z ≤ p.2.2) && decide (p.2.2 ≤ b.max_z)

/-- AABB crop block: `aabb_crop` in the CLI and step 5 of `_clean_proc`
(manual mask, `keep_local = np.where(mask)[0]`, roll back iff empty). -/
def cropStep (b : Bounds) (s : PipeState) : PipeState :=
  selApply .crop (idxsWhere (inBounds b) s.pcd) s

/-- DBSCAN block of `_clean_proc` (step 4): when some non-noise label
exists, keep the winning label's points (with the defensive
`pcd_is_empty(pcd_tmp)` revert of the source); otherwise keep the cloud as
an explicit no-op that still counts as a completed step. -/
def dbscanStepGui (env : FilterEnv) (eps : ℚ) (minpts : Nat) (s : PipeState) : PipeState :=
  match env.dbscan s.pcd eps minpts with
  | [] => { s with progress := s.progress + 1, log := s.log ++ [.stepRun .cluster, .noClusters] }
  | l0 :: ls =>
    if 0 ≤ listMax l0 ls then
      let best := bestLabel (l0 :: ls)
      let keepLocal := idxsWhere (fun l => decide (l = best)) (l0 :: ls)
      let pcdTmp := gather s.pcd keepLocal
      if pcdTmp = [] then
        { s with log := s.log ++ [.stepRun .cluster, .warnEmpty .cluster] }
      else
        { s with pcd := pcdTmp, idx := gather s.idx keepLocal,
                 progress := s.progress + 1,
                 log := s.log ++ [.stepRun .cluster, .keptInfo .cluster keepLocal.length] }
    else
      { s with progress := s.progress + 1, log := s.log ++ [.stepRun .cluster, .noClusters] }

/-- CLI `dbscan_largest_cluster`: no-op (input returned unchanged) when the
label array is empty or its maximum is negative, with the redundant
`not np.any(valid)` guard of the source kept; otherwise select the winning
label. -/
def cliDbscanStep (env : FilterEnv) (eps : ℚ) (minpts : Nat) (s : PipeState) : PipeState :=
  match env.dbscan s.pcd eps minpts with
  | [] => { s with log := s.log ++ [.stepRun .cluster, .noClusters] }
  | l0 :: ls =>
    if listMax l0 ls < 0 then
      { s with log := s.log ++ [.stepRun .cluster, .noClusters] }
    else if (l0 :: ls).filter (fun l => decide (0 ≤ l)) = [] then
      { s with log := s.log ++ [.stepRun .cluster, .allNoise] }
    else
      let best := bestLabel (l0 :: ls)
      let keepLocal := idxsWhere (fun l => decide (l = best)) (l0 :: ls)
      { s with pcd := gather s.pcd keepLocal, idx := gather s.idx keepLocal,
               progress := s.progress + 1,
               log := s.log ++ [.stepRun .cluster, .keptInfo .cluster keepLocal.length] }

/-! ### GUI crop-bounds entries (`_get_bounds_from_entries`) -/

/-- Outcome of reading one crop entry widget: empty string, a string that
fails `float()`, or a parsed number. -/
inductive FieldVal
  | blank
  | malformed
  | num (q : ℚ)
  deriving DecidableEq

/-- The six crop entry widgets, in the dict iteration order of
`self.var_crop_vals`. -/
structure CropFields where
  min_x : FieldVal
  min_y : FieldVal
  min_z : FieldVal
  max_x : FieldVal
  max_y : FieldVal
  max_z : FieldVal
  deriving DecidableEq

/-- The two `ValueError` reasons of `_get_bounds_from_entries`. -/
inductive BoundsErr
  | invalidValue
  | minMaxViolation
  deriving DecidableEq

/-- `_get_bounds_from_entries`: scan the six entries in order, returning
`ok none` at the first blank entry (crop skipped), raising at the first
malformed entry, then validating `min < max` on every axis. -/
def getBoundsFromEntries (cf : CropFields) : Except BoundsErr (Option Bounds) :=
  match cf.min_x with
  | .blank => .ok none
  | .malformed => .error .invalidValue
  | .num mnx =>
    match cf.min_y with
    | .blank => .ok none
    | .malformed => .error .invalidValue
    | .num mny =>
      match cf.min_z with
      | .blank => .ok none
      | .malformed => .error .invalidValue
      | .num mnz =>
        match cf.max_x with
        | .blank => .ok none
        | .malformed => .error .invalidValue
        | .num mxx =>
          match cf.max_y with
          | .blank => .ok none
          | .malformed => .error .invalidValue
          | .num mxy =>
            match cf.max_z with
            | .blank => .ok none
            | .malformed => .error .invalidValue
            | .num mxz =>
              if mnx < mxx ∧ mny < mxy ∧ mnz < mxz then
                .ok (some ⟨mnx, mny, mnz, mxx, mxy, mxz⟩)
              else .error .minMaxViolation

/-! ### The GUI pipeline `_clean_proc` -/

/-- Mode-1 configuration read from the GUI widgets at the start of
`_clean_proc`. -/
structure GuiCfg where
  gs_mode : Bool
  voxel_size : ℚ
  use_rad : Bool
  rad_nb : Nat
  rad_r : ℚ
  use_stat : Bool
  stat_nb : Nat
  stat_std : ℚ
  keep_largest : Bool
  db_eps : ℚ
  db_minpts : Nat
  crop_fields : CropFields

/-- Conditional step application (`if <enabled>:` blocks of the source). -/
def applyIf (c : Bool) (f : PipeState → PipeState) (s : PipeState) : PipeState :=
  if c then f s else s

/-- Effective voxel size: GS mode forces voxel downsampling off
(`voxel_size = 0.0`). -/
def effVoxel (cfg : GuiCfg) : ℚ :=
  if cfg.gs_mode && decide (0 < cfg.voxel_size) then 0 else cfg.voxel_size

/-- State at `=== CLEAN START ===`: working copies of the CURRENT cloud and
mapping, `mapping_valid_cleaned = True`, plus the pre-step log lines
(invalid-bounds warning during step counting, GS-mode voxel notice). -/
def cleanInit (cfg : GuiCfg) (pcd0 : List Point) (idx0 : List Nat) : PipeState :=
  { pcd := pcd0, idx := idx0, mapping_valid := true, progress := 0,
    log := (match getBoundsFromEntries cfg.crop_fields with
            | .ok _ => []
            | .error _ => [.warnInvalidBounds])
        ++ (if cfg.gs_mode && decide (0 < cfg.voxel_size) then [.gsDisabledVoxel] else []) }

/-- Steps 1-4 of `_clean_proc` in source order:
voxel → radius → statistical → DBSCAN largest. -/
def coreSteps (env : FilterEnv) (cfg : GuiCfg) (s : PipeState) : PipeState :=
  applyIf cfg.keep_largest (dbscanStepGui env cfg.db_eps cfg.db_minpts)
    (applyIf cfg.use_stat (statStep env cfg.stat_nb cfg.stat_std)
      (applyIf cfg.use_rad (radiusStep env cfg.rad_nb cfg.rad_r)
        (applyIf (decide (0 < effVoxel cfg)) (voxelStep env (effVoxel cfg)) s)))

/-- Whole `_clean_proc` run: steps 1-4, then the crop step when the bounds
entries parsed to an actual box (`do_crop and bounds`). -/
def clean_proc (env : FilterEnv) (cfg : GuiCfg) (pcd0 : List Point) (idx0 : List Nat) :
    PipeState :=
  match getBoundsFromEntries cfg.crop_fields with
  | .ok (some b) => cropStep b (coreSteps env cfg (cleanInit cfg pcd0 idx0))
  | _ => coreSteps env cfg (cleanInit cfg pcd0 idx0)

/-! ### The CLI pipeline (`pointnuker_cli.py main`) -/

/-- Parsed CLI arguments relevant to the filter sequence; `bounds` models
the six bound options `--min-x` .. `--max-z`, whose presence (not their ordering) is
validated by `main` when `--crop` is given. -/
structure CliArgs where
  dbscan : Bool
  eps : ℚ
  min_points : Nat
  radius_outlier : Bool
  radius_nb : Nat
  radius : ℚ
  stat_outlier : Bool
  stat_nb : Nat
  stat_std : ℚ
  crop : Bool
  bounds : Bounds

/-- Initial CLI state: `load_ply_gs_safe` builds the cloud together with
the identity mapping `idx = np.arange(n)`. -/
def cliInit (pcd0 : List Point) : PipeState :=
  { pcd := pcd0, idx := List.range pcd0.length, mapping_valid := true,
    progress := 0, log := [] }

/-- The CLI filter sequence of `main`: DBSCAN largest cluster, then radius
outlier, then statistical outlier, then AABB crop, starting from the
identity index mapping built by `load_ply_gs_safe`. -/
def cli_run (env : FilterEnv) (a : CliArgs) (pcd0 : List Point) : PipeState :=
  applyIf a.crop (cropStep a.bounds)
    (applyIf a.stat_outlier (statStep env a.stat_nb a.stat_std)
      (applyIf a.radius_outlier (radiusStep env a.radius_nb a.radius)
        (applyIf a.dbscan (cliDbscanStep env a.eps a.min_points)
          (cliInit pcd0))))

/-- The sequence of filters a run executed, extracted from its log (one
`stepRun` event per invoked filter block, in invocation order). -/
def stepsOf (evs : List LogEv) : List StepTag :=
  evs.filterMap (fun e => match e with | .stepRun t => some t | _ => none)

/-! ### GS-safe writers -/

/-- CLI `save_ply_gs_safe`: sort the kept indices ascending and emit the
original attribute rows at exactly those indices (rows are opaque, so
every original field is carried verbatim; PLY header/comments handling is
out of scope). -/
def save_ply_gs_safe {Row : Type} (rows : List Row) (idx_keep : List Nat) : List Row :=
  gather rows (sortAsc idx_keep)

/-- GUI `_write_gs_preserving`: raises (`error`) on an empty selection,
otherwise sorts the kept indices and emits the original rows at those
indices.  The no-file-loaded guard is not modelled: the embedding assumes
a loaded session (`vertex_data0` present). -/
def write_gs_preserving {Row : Type} (rows : List Row) (idx_keep : List Nat) :
    Except Unit (List Row) :=
  if idx_keep = [] then .error ()
  else .ok (gather rows (sortAsc idx_keep))

/-- Result of a GUI save action. -/
inductive SaveOutcome (Row : Type)
  | noCleaned
  | refuseMappingInvalid
  | writeError
  | saved (rows : List Row)

/-- The slice of `PointNukerApp` state the save/advisor actions touch;
`Row` is the opaque type of one PLY vertex record. -/
structure NukerState (Row : Type) where
  pcd_current : List Point
  idx_current : List Nat
  idx_cleaned : Option (List Nat)
  mapping_valid_cleaned : Bool
  vertex_data0 : List Row
  var_rad_r : ℚ
  var_db_eps : ℚ
  var_db_minpts : Nat

/-- `save_cleaned_as_gs`: no CLEANED result yet → info box; broken mapping
→ refuse with the re-run instruction (before any dialog or write);
otherwise write through `_write_gs_preserving`.  The file dialog and its
cancel path are not modelled. -/
def save_cleaned_as_gs {Row : Type} (st : NukerState Row) : NukerState Row × SaveOutcome Row :=
  match st.idx_cleaned with
  | none => (st, .noCleaned)
  | some idx =>
    if st.mapping_valid_cleaned = false then (st, .refuseMappingInvalid)
    else
      match write_gs_preserving st.vertex_data0 idx with
      | .error _ => (st, .writeError)
      | .ok rows => (st, .saved rows)

/-! ### Parameter assistant (`autosuggest_params`) -/

/-- Result of the parameter assistant. -/
inductive SuggestResult
  | noCloud
  | failure
  | suggested (radius eps : ℚ) (minpts : Nat)
  deriving DecidableEq

/-- `autosuggest_params`: `nn_dists` is the list of second-nearest
distances of the KDTree queries over the random sample (external
randomness and KDTree are inputs of the model); `k` is the keyword
argument (default 8 at the only call site).  On success the suggestions
are written into the radius / DBSCAN eps / DBSCAN min_points widget
variables (the 6-decimal string formatting of the widgets is not
modelled). -/
def autosuggest_params {Row : Type} (st : NukerState Row) (k : Nat) (nn_dists : List ℚ) :
    NukerState Row × SuggestResult :=
  if st.pcd_current = [] then (st, .noCloud)
  else if nn_dists = [] then (st, .failure)
  else
    let d_med := median nn_dists
    let radius_sug := max (d_med * (5/2)) (1/1000000)
    let eps_sug := max (d_med * 2) (1/1000000)
    let minpts_sug := max 8 k
    ({ st with var_rad_r := radius_sug, var_db_eps := eps_sug,
               var_db_minpts := minpts_sug },
     .suggested radius_sug eps_sug minpts_sug)

/-! ### CLI preset application -/

/-- The tunable CLI parameters (the argparse destinations a preset can
name). -/
inductive ArgKey
  | dbscan
  | eps
  | min_points
  | radius_outlier
  | radius_nb
  | radius
  | stat_outlier
  | stat_nb
  | stat_std
  | crop
  | min_x
  | min_y
  | min_z
  | max_x
  | max_y
  | max_z
  deriving DecidableEq

/-- Value of one argparse destination (`noneV` models Python `None`, the
default of the six bound arguments). -/
inductive ArgVal
  | flag (b : Bool)
  | num (q : ℚ)
  | int (n : Nat)
  | noneV
  deriving DecidableEq

/-- The `parser.get_default` values of `main`. -/
def argDefault : ArgKey → ArgVal
  | .dbscan => .flag false
  | .eps => .num (3/2)
  | .min_points => .int 50
  | .radius_outlier => .flag false
  | .radius_nb => .int 16
  | .radius => .num (1/50)
  | .stat_outlier => .flag false
  | .stat_nb => .int 20
  | .stat_std => .num (3/2)
  | .crop => .flag false
  | .min_x => .noneV
  | .min_y => .noneV
  | .min_z => .noneV
  | .max_x => .noneV
  | .max_y => .noneV
  | .max_z => .noneV

/-- argparse semantics: a destination holds the explicitly supplied value
when one was given, else its default (explicitness itself is not stored in
the namespace). -/
def resolveArgs (explicit : ArgKey → Option ArgVal) : ArgKey → ArgVal :=
  fun k => (explicit k).getD (argDefault k)

/-- The preset-application loop of `main`: for each preset item, overwrite
the destination iff its current value equals the parser default. -/
def applyPreset (args : ArgKey → ArgVal) (preset : List (ArgKey × ArgVal)) :
    ArgKey → ArgVal :=
  preset.foldl
    (fun a kv => if a kv.1 = argDefault kv.1 then Function.update a kv.1 kv.2 else a)
    args

/-! ### Concrete environments used by the witnesses -/

/-- Environment in which every filter selects nothing and voxelisation
empties the cloud (well-formed per `FilterEnv.Wf`). -/
def envRejectAll : FilterEnv where
  voxelDown := fun _ _ => []
  radiusSel := fun _ _ _ => []
  statSel := fun _ _ _ => []
  dbscan := fun pts _ _ => pts.map (fun _ => -1)

/-- Environment in which every filter keeps everything and every point gets
cluster label 0 (well-formed per `FilterEnv.Wf`). -/
def envId : FilterEnv where
  voxelDown := fun pts _ => pts
  radiusSel := fun pts _ _ => List.range pts.length
  statSel := fun pts _ _ => List.range pts.length
  dbscan := fun pts _ _ => pts.map (fun _ => 0)

theorem envRejectAll_wf : envRejectAll.Wf := by
  refine ⟨?_, ?_, ?_, ?_⟩ <;> intros <;> simp [envRejectAll, FilterEnv.Wf]

theorem envId_wf : envId.Wf := by
  refine ⟨?_, ?_, ?_, ?_⟩
  · intro pts nb r
    exact ⟨List.pairwise_lt_range _, fun i hi => List.mem_range.mp hi⟩
  · intro pts nb sd
    exact ⟨List.pairwise_lt_range _, fun i hi => List.mem_range.mp hi⟩
  · intro pts e m
    simp [envId]
  · intro pts v
    simp [envId]

/-! ### Step-level lemmas -/

/-- Nonemptiness invariant of a run: the index mapping is nonempty and at
least as long as the working cloud. -/
def Inv (s : PipeState) : Prop := s.idx ≠ [] ∧ s.pcd.length ≤ s.idx.length

theorem selApply_idx_sublist (t : StepTag) (sel : List Nat) (s : PipeState)
    (hp : sel.Pairwise (· < ·)) : List.Sublist (selApply t sel s).idx s.idx := by
  unfold selApply
  split
  · exact List.Sublist.refl _
  · exact gather_sublist s.idx sel hp

theorem selApply_mv (t : StepTag) (sel : List Nat) (s : PipeState) :
    (selApply t sel s).mapping_valid = s.mapping_valid := by
  unfold selApply
  split <;> rfl

theorem selApply_steps (t : StepTag) (sel : List Nat) (s : PipeState) :
    stepsOf (selApply t sel s).log = stepsOf s.log ++ [t] := by
  unfold selApply
  split <;> simp [stepsOf, List.filterMap_append, List.filterMap_cons]

theorem selApply_log_extend (t : StepTag) (sel : List Nat) (s : PipeState) :
    ∃ d, (selApply t sel s).log = s.log ++ d := by
  unfold selApply
  split
  · exact ⟨_, rfl⟩
  · exact ⟨_, rfl⟩

theorem selApply_inv (t : StepTag) (sel : List Nat) (s : PipeState)
    (hb : ∀ i ∈ sel, i < s.pcd.length) (hI : Inv s) : Inv (selApply t sel s) := by
  unfold selApply
  split
  · exact hI
  · rename_i hne
    have hb2 : ∀ i ∈ sel, i < s.idx.length := fun i hi => lt_of_lt_of_le (hb i hi) hI.2
    refine ⟨gather_ne_nil s.idx sel hne hb2, ?_⟩
    show (gather s.pcd sel).length ≤ (gather s.idx sel).length
    rw [gather_length _ _ hb, gather_length _ _ hb2]

theorem selApply_empty (t : StepTag) (sel : List Nat) (s : PipeState) (h : sel = []) :
    selApply t sel s = { s with log := s.log ++ [.stepRun t, .warnEmpty t] } := by
  unfold selApply
  rw [if_pos h]

theorem voxelStep_idx (env : FilterEnv) (v : ℚ) (s : PipeState) :
    (voxelStep env v s).idx = s.idx := by
  simp only [voxelStep]
  split <;> rfl

theorem voxelStep_steps (env : FilterEnv) (v : ℚ) (s : PipeState) :
    stepsOf (voxelStep env v s).log = stepsOf s.log ++ [StepTag.voxel] := by
  simp only [voxelStep]
  split <;> simp [stepsOf, List.filterMap_append, List.filterMap_cons]

theorem voxelStep_log_extend (env : FilterEnv) (v : ℚ) (s : PipeState) :
    ∃ d, (voxelStep env v s).log = s.log ++ d := by
  simp only [voxelStep]
  split
  · exact ⟨_, rfl⟩
  · exact ⟨_, rfl⟩

theorem voxelStep_mv_applied (env : FilterEnv) (v : ℚ) (s : PipeState)
    (h : env.voxelDown s.pcd v ≠ []) : (voxelStep env v s).mapping_valid = false := by
  simp only [voxelStep]
  rw [if_neg h]

theorem voxelStep_empty (env : FilterEnv) (v : ℚ) (s : PipeState)
    (h : env.voxelDown s.pcd v = []) :
    voxelStep env v s = { s with log := s.log ++ [.stepRun .voxel, .warnEmpty .voxel] } := by
  simp only [voxelStep]
  rw [if_pos h]

theorem voxelStep_inv (env : FilterEnv) (v : ℚ) (s : PipeState)
    (hlen : (env.voxelDown s.pcd v).length ≤ s.pcd.length) (hI : Inv s) :
    Inv (voxelStep env v s) := by
  simp only [voxelStep]
  split
  · exact hI
  · exact ⟨hI.1, le_trans hlen hI.2⟩

theorem radiusStep_idx_sublist (env : FilterEnv) (hw : env.Wf) (nb : Nat) (r : ℚ)
    (s : PipeState) : List.Sublist (radiusStep env nb r s).idx s.idx :=
  selApply_idx_sublist _ _ _ (hw.1 s.pcd nb r).1

theorem statStep_idx_sublist (env : FilterEnv) (hw : env.Wf) (nb : Nat) (sd : ℚ)
    (s : PipeState) : List.Sublist (statStep env nb sd s).idx s.idx :=
  selApply_idx_sublist _ _ _ (hw.2.1 s.pcd nb sd).1

theorem cropStep_idx_sublist (b : Bounds) (s : PipeState) :
    List.Sublist (cropStep b s).idx s.idx :=
  selApply_idx_sublist _ _ _ (idxsWhere_pairwise _ _)

theorem radiusStep_mv (env : FilterEnv) (nb : Nat) (r : ℚ) (s : PipeState) :
    (radiusStep env nb r s).mapping_valid = s.mapping_valid := selApply_mv _ _ _

theorem statStep_mv (env : FilterEnv) (nb : Nat) (sd : ℚ) (s : PipeState) :
    (statStep env nb sd s).mapping_valid = s.mapping_valid := selApply_mv _ _ _

theorem cropStep_mv (b : Bounds) (s : PipeState) :
    (cropStep b s).mapping_valid = s.mapping_valid := selApply_mv _ _ _

theorem radiusStep_steps (env : FilterEnv) (nb : Nat) (r : ℚ) (s : PipeState) :
    stepsOf (radiusStep env nb r s).log = stepsOf s.log ++ [StepTag.radius] :=
  selApply_steps _ _ _

theorem statStep_steps (env : FilterEnv) (nb : Nat) (sd : ℚ) (s : PipeState) :
    stepsOf (statStep env nb sd s).log = stepsOf s.log ++ [StepTag.stat] :=
  selApply_steps _ _ _

theorem cropStep_steps (b : Bounds) (s : PipeState) :
    stepsOf (cropStep b s).log = stepsOf s.log ++ [StepTag.crop] :=
  selApply_steps _ _ _

theorem radiusStep_log_extend (env : FilterEnv) (nb : Nat) (r : ℚ) (s : PipeState) :
    ∃ d, (radiusStep env nb r s).log = s.log ++ d := selApply_log_extend _ _ _

theorem statStep_log_extend (env : FilterEnv) (nb : Nat) (sd : ℚ) (s : PipeState) :
    ∃ d, (statStep env nb sd s).log = s.log ++ d := selApply_log_extend _ _ _

theorem cropStep_log_extend (b : Bounds) (s : PipeState) :
    ∃ d, (cropStep b s).log = s.log ++ d := selApply_log_extend _ _ _

theorem radiusStep_inv (env : FilterEnv) (hw : env.Wf) (nb : Nat) (r : ℚ) (s : PipeState)
    (hI : Inv s) : Inv (radiusStep env nb r s) :=
  selApply_inv _ _ _ (hw.1 s.pcd nb r).2 hI

theorem statStep_inv (env : FilterEnv) (hw : env.Wf) (nb : Nat) (sd : ℚ) (s : PipeState)
    (hI : Inv s) : Inv (statStep env nb sd s) :=
  selApply_inv _ _ _ (hw.2.1 s.pcd nb sd).2 hI

theorem cropStep_inv (b : Bounds) (s : PipeState) (hI : Inv s) : Inv (cropStep b s) :=
  selApply_inv _ _ _ (idxsWhere_bounded _ _) hI

theorem dbscanStepGui_idx_sublist (env : FilterEnv) (eps : ℚ) (mp : Nat) (s : PipeState) :
    List.Sublist (dbscanStepGui env eps mp s).idx s.idx := by
  simp only [dbscanStepGui]
  split
  · exact List.Sublist.refl _
  · split
    · split
      · exact List.Sublist.refl _
      · exact gather_sublist _ _ (idxsWhere_pairwise _ _)
    · exact List.Sublist.refl _

theorem dbscanStepGui_mv (env : FilterEnv) (eps : ℚ) (mp : Nat) (s : PipeState) :
    (dbscanStepGui env eps mp s).mapping_valid = s.mapping_valid := by
  simp only [dbscanStepGui]
  split
  · rfl
  · split
    · split <;> rfl
    · rfl

theorem dbscanStepGui_steps (env : FilterEnv) (eps : ℚ) (mp : Nat) (s : PipeState) :
    stepsOf (dbscanStepGui env eps mp s).log = stepsOf s.log ++ [StepTag.cluster] := by
  simp only [dbscanStepGui]
  split
  · simp [stepsOf, List.filterMap_append, List.filterMap_cons]
  · split
    · split <;> simp [stepsOf, List.filterMap_append, List.filterMap_cons]
    · simp [stepsOf, List.filterMap_append, List.filterMap_cons]

theorem dbscanStepGui_log_extend (env : FilterEnv) (eps : ℚ) (mp : Nat) (s : PipeState) :
    ∃ d, (dbscanStepGui env eps mp s).log = s.log ++ d := by
  simp only [dbscanStepGui]
  split
  · exact ⟨_, rfl⟩
  · split
    · split
      · exact ⟨_, rfl⟩
      · exact ⟨_, rfl⟩
    · exact ⟨_, rfl⟩

theorem dbscanStepGui_inv (env : FilterEnv) (eps : ℚ) (mp : Nat) (s : PipeState)
    (hlen : (env.dbscan s.pcd eps mp).length = s.pcd.length) (hI : Inv s) :
    Inv (dbscanStepGui env eps mp s) := by
  simp only [dbscanStepGui]
  split
  · exact hI
  · rename_i l0 ls heq
    split
    · split
      · exact hI
      · rename_i hne
        have hb : ∀ i ∈ idxsWhere (fun l => decide (l = bestLabel (l0 :: ls))) (l0 :: ls),
            i < s.pcd.length := by
          intro i hi
          have := idxsWhere_bounded _ _ i hi
          rw [← heq] at this
          omega
        have hkl : idxsWhere (fun l => decide (l = bestLabel (l0 :: ls))) (l0 :: ls) ≠ [] := by
          intro hcon
          rw [hcon] at hne
          exact hne rfl
        have hb2 : ∀ i ∈ idxsWhere (fun l => decide (l = bestLabel (l0 :: ls))) (l0 :: ls),
            i < s.idx.length := fun i hi => lt_of_lt_of_le (hb i hi) hI.2
        refine ⟨gather_ne_nil s.idx _ hkl hb2, ?_⟩
        show (gather s.pcd _).length ≤ (gather s.idx _).length
        rw [gather_length _ _ hb, gather_length _ _ hb2]
    · exact hI

theorem cliDbscanStep_idx_sublist (env : FilterEnv) (eps : ℚ) (mp : Nat) (s : PipeState) :
    List.Sublist (cliDbscanStep env eps mp s).idx s.idx := by
  simp only [cliDbscanStep]
  split
  · exact List.Sublist.refl _
  · split
    · exact List.Sublist.refl _
    · split
      · exact List.Sublist.refl _
      · exact gather_sublist _ _ (idxsWhere_pairwise _ _)

theorem cliDbscanStep_mv (env : FilterEnv) (eps : ℚ) (mp : Nat) (s : PipeState) :
    (cliDbscanStep env eps mp s).mapping_valid = s.mapping_valid := by
  simp only [cliDbscanStep]
  split
  · rfl
  · split
    · rfl
    · split <;> rfl

theorem cliDbscanStep_steps (env : FilterEnv) (eps : ℚ) (mp : Nat) (s : PipeState) :
    stepsOf (cliDbscanStep env eps mp s).log = stepsOf s.log ++ [StepTag.cluster] := by
  simp only [cliDbscanStep]
  split
  · simp [stepsOf, List.filterMap_append, List.filterMap_cons]
  · split
    · simp [stepsOf, List.filterMap_append, List.filterMap_cons]
    · split <;> simp [stepsOf, List.filterMap_append, List.filterMap_cons]

theorem cliDbscanStep_log_extend (env : FilterEnv) (eps : ℚ) (mp : Nat) (s : PipeState) :
    ∃ d, (cliDbscanStep env eps mp s).log = s.log ++ d := by
  simp only [cliDbscanStep]
  split
  · exact ⟨_, rfl⟩
  · split
    · exact ⟨_, rfl⟩
    · split
      · exact ⟨_, rfl⟩
      · exact ⟨_, rfl⟩

theorem bestOf_spec (nn : List Int) (h : nn ≠ []) :
    bestOf nn ∈ nn
    ∧ (∀ l ∈ nn, nn.count l ≤ nn.count (bestOf nn))
    ∧ (∀ l ∈ nn, nn.count l = nn.count (bestOf nn) → bestOf nn ≤ l) := by
  obtain ⟨x, hx⟩ := List.exists_mem_of_ne_nil nn h
  have hxu : x ∈ npUnique nn := (mem_npUnique x nn).mpr hx
  cases hu : npUnique nn with
  | nil =>
    rw [hu] at hxu
    simp at hxu
  | cons u us =>
    have hpw : (u :: us).Pairwise (· < ·) := hu ▸ npUnique_pairwise nn
    have hpairs : ((u, nn.count u) :: us.map (fun l => (l, nn.count l))).Pairwise
        (fun a b => a.1 < b.1) := by
      rw [show ((u, nn.count u) :: us.map (fun l => (l, nn.count l)))
            = (u :: us).map (fun l => (l, nn.count l)) from rfl,
          List.pairwise_map]
      exact hpw
    have hbest : bestOf nn
        = (argmaxPairs (u, nn.count u) (us.map (fun l => (l, nn.count l)))).1 := by
      unfold bestOf
      rw [hu]
      rfl
    obtain ⟨hm, hmax, htie⟩ := argmaxPairs_spec _ _ hpairs
    have hmm : ∃ lw, lw ∈ u :: us
        ∧ argmaxPairs (u, nn.count u) (us.map (fun l => (l, nn.count l)))
            = (lw, nn.count lw) := by
      rcases List.mem_cons.mp hm with h1 | h2
      · exact ⟨u, List.mem_cons_self u us, h1⟩
      · obtain ⟨lw, hlw, hlweq⟩ := List.mem_map.mp h2
        exact ⟨lw, List.mem_cons_of_mem u hlw, hlweq.symm⟩
    obtain ⟨lw, hlwu, hlweq⟩ := hmm
    have hbest2 : bestOf nn = lw := by rw [hbest, hlweq]
    have memf : ∀ l ∈ u :: us,
        (l, nn.count l) ∈ (u, nn.count u) :: us.map (fun l => (l, nn.count l)) := by
      intro l hl
      rcases List.mem_cons.mp hl with rfl | hl2
      · exact List.mem_cons_self _ _
      · exact List.mem_cons_of_mem _ (List.mem_map.mpr ⟨l, hl2, rfl⟩)
    refine ⟨?_, ?_, ?_⟩
    · rw [hbest2]
      exact (mem_npUnique lw nn).mp (hu ▸ hlwu)
    · intro l hl
      have hlu : l ∈ u :: us := hu ▸ (mem_npUnique l nn).mpr hl
      have hle := hmax _ (memf l hlu)
      rw [hlweq] at hle
      rw [hbest2]
      exact hle
    · intro l hl hcnt
      have hlu : l ∈ u :: us := hu ▸ (mem_npUnique l nn).mpr hl
      have hc2 : (l, nn.count l).2
          = (argmaxPairs (u, nn.count u) (us.map (fun l => (l, nn.count l)))).2 := by
        rw [hlweq]
        show nn.count l = nn.count lw
        rw [hcnt, hbest2]
      have hle := htie _ (memf l hlu) hc2
      rw [hlweq] at hle
      rw [hbest2]
      exact hle

/-- The winning label is one of the input labels. -/
theorem bestLabel_mem (labels : List Int)
    (h : labels.filter (fun l => decide (0 ≤ l)) ≠ []) : bestLabel labels ∈ labels :=
  List.mem_of_mem_filter (bestOf_spec _ h).1

theorem listMax_mem (x : Int) (l : List Int) : listMax x l = x ∨ listMax x l ∈ l := by
  induction l generalizing x with
  | nil => exact Or.inl rfl
  | cons y ys ih =>
    show listMax (max x y) ys = x ∨ listMax (max x y) ys ∈ y :: ys
    rcases ih (max x y) with hm | hm
    · rcases max_choice x y with hc | hc
      · exact Or.inl (hm.trans hc)
      · refine Or.inr ?_
        rw [hm, hc]
        exact List.mem_cons_self y ys
    · exact Or.inr (List.mem_cons_of_mem y hm)

theorem cliDbscanStep_inv (env : FilterEnv) (eps : ℚ) (mp : Nat) (s : PipeState)
    (hlen : (env.dbscan s.pcd eps mp).length = s.pcd.length) (hI : Inv s) :
    Inv (cliDbscanStep env eps mp s) := by
  simp only [cliDbscanStep]
  split
  · exact hI
  · rename_i l0 ls heq
    split
    · exact hI
    · split
      · exact hI
      · rename_i hnn
        have hbm : bestLabel (l0 :: ls) ∈ l0 :: ls := bestLabel_mem _ hnn
        have hkl : idxsWhere (fun l => decide (l = bestLabel (l0 :: ls))) (l0 :: ls) ≠ [] :=
          idxsWhere_ne_nil_of_mem hbm (by simp)
        have hb : ∀ i ∈ idxsWhere (fun l => decide (l = bestLabel (l0 :: ls))) (l0 :: ls),
            i < s.pcd.length := by
          intro i hi
          have := idxsWhere_bounded _ _ i hi
          rw [← heq] at this
          omega
        have hb2 : ∀ i ∈ idxsWhere (fun l => decide (l = bestLabel (l0 :: ls))) (l0 :: ls),
            i < s.idx.length := fun i hi => lt_of_lt_of_le (hb i hi) hI.2
        refine ⟨gather_ne_nil s.idx _ hkl hb2, ?_⟩
        show (gather s.pcd _).length ≤ (gather s.idx _).length
        rw [gather_length _ _ hb, gather_length _ _ hb2]

/-! ### Composition through `applyIf` and the two pipelines -/

theorem applyIf_idx_sublist (c : Bool) (f : PipeState → PipeState) (s : PipeState)
    (hf : ∀ s, List.Sublist (f s).idx s.idx) :
    List.Sublist (applyIf c f s).idx s.idx := by
  cases c
  · exact List.Sublist.refl _
  · exact hf s

theorem applyIf_mv (c : Bool) (f : PipeState → PipeState) (s : PipeState)
    (hf : ∀ s, (f s).mapping_valid = s.mapping_valid) :
    (applyIf c f s).mapping_valid = s.mapping_valid := by
  cases c
  · rfl
  · exact hf s

theorem applyIf_steps (c : Bool) (f : PipeState → PipeState) (t : StepTag) (s : PipeState)
    (hf : ∀ s, stepsOf (f s).log = stepsOf s.log ++ [t]) :
    stepsOf (applyIf c f s).log = stepsOf s.log ++ (if c then [t] else []) := by
  cases c
  · simp [applyIf]
  · simp [applyIf, hf s]

theorem applyIf_log_extend (c : Bool) (f : PipeState → PipeState) (s : PipeState)
    (hf : ∀ s, ∃ d, (f s).log = s.log ++ d) :
    ∃ d, (applyIf c f s).log = s.log ++ d := by
  cases c
  · exact ⟨[], by simp [applyIf]⟩
  · exact hf s

theorem applyIf_inv (c : Bool) (f : PipeState → PipeState) (s : PipeState)
    (hf : ∀ s, Inv s → Inv (f s)) (hI : Inv s) : Inv (applyIf c f s) := by
  cases c
  · exact hI
  · exact hf s hI

theorem coreSteps_idx_sublist (env : FilterEnv) (hw : env.Wf) (cfg : GuiCfg) (s : PipeState) :
    List.Sublist (coreSteps env cfg s).idx s.idx := by
  unfold coreSteps
  exact (applyIf_idx_sublist _ _ _ (fun s => dbscanStepGui_idx_sublist env _ _ s)).trans
    ((applyIf_idx_sublist _ _ _ (fun s => statStep_idx_sublist env hw _ _ s)).trans
      ((applyIf_idx_sublist _ _ _ (fun s => radiusStep_idx_sublist env hw _ _ s)).trans
        (applyIf_idx_sublist _ _ _ (fun s => (voxelStep_idx env _ s) ▸ List.Sublist.refl _))))

theorem coreSteps_mv (env : FilterEnv) (cfg : GuiCfg) (s : PipeState) :
    (coreSteps env cfg s).mapping_valid
      = (applyIf (decide (0 < effVoxel cfg)) (voxelStep env (effVoxel cfg)) s).mapping_valid := by
  unfold coreSteps
  rw [applyIf_mv _ _ _ (fun s => dbscanStepGui_mv env _ _ s),
      applyIf_mv _ _ _ (fun s => statStep_mv env _ _ s),
      applyIf_mv _ _ _ (fun s => radiusStep_mv env _ _ s)]

theorem coreSteps_stepsOf (env : FilterEnv) (cfg : GuiCfg) (s : PipeState) :
    stepsOf (coreSteps env cfg s).log
      = stepsOf s.log
        ++ (if decide (0 < effVoxel cfg) then [StepTag.voxel] else [])
        ++ (if cfg.use_rad then [StepTag.radius] else [])
        ++ (if cfg.use_stat then [StepTag.stat] else [])
        ++ (if cfg.keep_largest then [StepTag.cluster] else []) := by
  unfold coreSteps
  rw [applyIf_steps _ _ StepTag.cluster _ (fun s => dbscanStepGui_steps env _ _ s),
      applyIf_steps _ _ StepTag.stat _ (fun s => statStep_steps env _ _ s),
      applyIf_steps _ _ StepTag.radius _ (fun s => radiusStep_steps env _ _ s),
      applyIf_steps _ _ StepTag.voxel _ (fun s => voxelStep_steps env _ s)]

theorem coreSteps_log_extend (env : FilterEnv) (cfg : GuiCfg) (s : PipeState) :
    ∃ d, (coreSteps env cfg s).log = s.log ++ d := by
  unfold coreSteps
  obtain ⟨d1, h1⟩ := applyIf_log_extend (decide (0 < effVoxel cfg))
    (voxelStep env (effVoxel cfg)) s (fun s => voxelStep_log_extend env _ s)
  obtain ⟨d2, h2⟩ := applyIf_log_extend cfg.use_rad
    (radiusStep env cfg.rad_nb cfg.rad_r) _ (fun s => radiusStep_log_extend env _ _ s)
  obtain ⟨d3, h3⟩ := applyIf_log_extend cfg.use_stat
    (statStep env cfg.stat_nb cfg.stat_std) _ (fun s => statStep_log_extend env _ _ s)
  obtain ⟨d4, h4⟩ := applyIf_log_extend cfg.keep_largest
    (dbscanStepGui env cfg.db_eps cfg.db_minpts) _
    (fun s => dbscanStepGui_log_extend env _ _ s)
  exact ⟨d1 ++ d2 ++ d3 ++ d4, by rw [h4, h3, h2, h1]; simp [List.append_assoc]⟩

theorem coreSteps_inv (env : FilterEnv) (hw : env.Wf) (cfg : GuiCfg) (s : PipeState)
    (hI : Inv s) : Inv (coreSteps env cfg s) := by
  unfold coreSteps
  refine applyIf_inv _ _ _ (fun s hs => dbscanStepGui_inv env _ _ s (hw.2.2.1 s.pcd _ _) hs) ?_
  refine applyIf_inv _ _ _ (fun s hs => statStep_inv env hw _ _ s hs) ?_
  refine applyIf_inv _ _ _ (fun s hs => radiusStep_inv env hw _ _ s hs) ?_
  exact applyIf_inv _ _ _ (fun s hs => voxelStep_inv env _ s (hw.2.2.2 s.pcd _) hs) hI

theorem clean_proc_of_ok_some (env : FilterEnv) (cfg : GuiCfg) (pcd0 : List Point)
    (idx0 : List Nat) (b : Bounds)
    (h : getBoundsFromEntries cfg.crop_fields = .ok (some b)) :
    clean_proc env cfg pcd0 idx0 = cropStep b (coreSteps env cfg (cleanInit cfg pcd0 idx0)) := by
  unfold clean_proc
  rw [h]

theorem clean_proc_of_ok_none (env : FilterEnv) (cfg : GuiCfg) (pcd0 : List Point)
    (idx0 : List Nat) (h : getBoundsFromEntries cfg.crop_fields = .ok none) :
    clean_proc env cfg pcd0 idx0 = coreSteps env cfg (cleanInit cfg pcd0 idx0) := by
  unfold clean_proc
  rw [h]

theorem clean_proc_of_error (env : FilterEnv) (cfg : GuiCfg) (pcd0 : List Point)
    (idx0 : List Nat) (e : BoundsErr)
    (h : getBoundsFromEntries cfg.crop_fields = .error e) :
    clean_proc env cfg pcd0 idx0 = coreSteps env cfg (cleanInit cfg pcd0 idx0) := by
  unfold clean_proc
  rw [h]

theorem clean_proc_idx_sublist (env : FilterEnv) (hw : env.Wf) (cfg : GuiCfg)
    (pcd0 : List Point) (idx0 : List Nat) :
    List.Sublist (clean_proc env cfg pcd0 idx0).idx idx0 := by
  unfold clean_proc
  have hs : (cleanInit cfg pcd0 idx0).idx = idx0 := rfl
  split
  · exact (cropStep_idx_sublist _ _).trans (hs ▸ coreSteps_idx_sublist env hw cfg _)
  · exact hs ▸ coreSteps_idx_sublist env hw cfg _

theorem clean_proc_inv (env : FilterEnv) (hw : env.Wf) (cfg : GuiCfg)
    (pcd0 : List Point) (idx0 : List Nat)
    (hne : idx0 ≠ []) (hlen : pcd0.length ≤ idx0.length) :
    Inv (clean_proc env cfg pcd0 idx0) := by
  unfold clean_proc
  have hI : Inv (cleanInit cfg pcd0 idx0) := ⟨hne, hlen⟩
  split
  · exact cropStep_inv _ _ (coreSteps_inv env hw cfg _ hI)
  · exact coreSteps_inv env hw cfg _ hI

theorem clean_proc_stepsOf (env : FilterEnv) (cfg : GuiCfg)
    (pcd0 : List Point) (idx0 : List Nat) :
    stepsOf (clean_proc env cfg pcd0 idx0).log
      = (if decide (0 < effVoxel cfg) then [StepTag.voxel] else [])
        ++ (if cfg.use_rad then [StepTag.radius] else [])
        ++ (if cfg.use_stat then [StepTag.stat] else [])
        ++ (if cfg.keep_largest then [StepTag.cluster] else [])
        ++ (match getBoundsFromEntries cfg.crop_fields with
            | .ok (some _) => [StepTag.crop]
            | _ => []) := by
  have hinit : stepsOf (cleanInit cfg pcd0 idx0).log = [] := by
    unfold cleanInit
    split <;> split <;> rfl
  cases hcf : getBoundsFromEntries cfg.crop_fields with
  | ok ob =>
    cases ob with
    | some b =>
      rw [clean_proc_of_ok_some env cfg pcd0 idx0 b hcf, cropStep_steps,
          coreSteps_stepsOf, hinit]
      simp [List.append_assoc]
    | none =>
      rw [clean_proc_of_ok_none env cfg pcd0 idx0 hcf, coreSteps_stepsOf, hinit]
      simp [List.append_assoc]
  | error e =>
    rw [clean_proc_of_error env cfg pcd0 idx0 e hcf, coreSteps_stepsOf, hinit]
    simp [List.append_assoc]

theorem cli_run_stepsOf (env : FilterEnv) (a : CliArgs) (pcd0 : List Point) :
    stepsOf (cli_run env a pcd0).log
      = (if a.dbscan then [StepTag.cluster] else [])
        ++ (if a.radius_outlier then [StepTag.radius] else [])
        ++ (if a.stat_outlier then [StepTag.stat] else [])
        ++ (if a.crop then [StepTag.crop] else []) := by
  unfold cli_run
  rw [applyIf_steps _ _ StepTag.crop _ (fun s => cropStep_steps _ s),
      applyIf_steps _ _ StepTag.stat _ (fun s => statStep_steps env _ _ s),
      applyIf_steps _ _ StepTag.radius _ (fun s => radiusStep_steps env _ _ s),
      applyIf_steps _ _ StepTag.cluster _ (fun s => cliDbscanStep_steps env _ _ s)]
  have h0 : stepsOf (cliInit pcd0).log = [] := rfl
  rw [h0]
  simp

theorem cli_run_idx_sublist (env : FilterEnv) (hw : env.Wf) (a : CliArgs)
    (pcd0 : List Point) :
    List.Sublist (cli_run env a pcd0).idx (List.range pcd0.length) := by
  unfold cli_run
  exact (applyIf_idx_sublist _ _ _ (fun s => cropStep_idx_sublist _ s)).trans
    ((applyIf_idx_sublist _ _ _ (fun s => statStep_idx_sublist env hw _ _ s)).trans
      ((applyIf_idx_sublist _ _ _ (fun s => radiusStep_idx_sublist env hw _ _ s)).trans
        (applyIf_idx_sublist _ _ _ (fun s => cliDbscanStep_idx_sublist env _ _ s))))

theorem cli_run_inv (env : FilterEnv) (hw : env.Wf) (a : CliArgs)
    (pcd0 : List Point) (hne : pcd0 ≠ []) : Inv (cli_run env a pcd0) := by
  unfold cli_run
  have hI : Inv (cliInit pcd0) := by
    refine ⟨?_, by simp [cliInit]⟩
    show List.range pcd0.length ≠ []
    simp only [ne_eq, List.range_eq_nil]
    intro hcon
    exact hne (List.eq_nil_of_length_eq_zero hcon)
  refine applyIf_inv _ _ _ (fun s hs => cropStep_inv _ s hs) ?_
  refine applyIf_inv _ _ _ (fun s hs => statStep_inv env hw _ _ s hs) ?_
  refine applyIf_inv _ _ _ (fun s hs => radiusStep_inv env hw _ _ s hs) ?_
  exact applyIf_inv _ _ _ (fun s hs => cliDbscanStep_inv env _ _ s (hw.2.2.1 s.pcd _ _) hs) hI

theorem effVoxel_pos_iff (cfg : GuiCfg) :
    0 < effVoxel cfg ↔ (cfg.gs_mode = false ∧ 0 < cfg.voxel_size) := by
  unfold effVoxel
  cases hgs : cfg.gs_mode <;> by_cases hv : 0 < cfg.voxel_size <;> simp [hv]

theorem clean_proc_mv (env : FilterEnv) (cfg : GuiCfg) (pcd0 : List Point)
    (idx0 : List Nat) :
    (clean_proc env cfg pcd0 idx0).mapping_valid
      = (applyIf (decide (0 < effVoxel cfg)) (voxelStep env (effVoxel cfg))
          (cleanInit cfg pcd0 idx0)).mapping_valid := by
  cases hcf : getBoundsFromEntries cfg.crop_fields with
  | ok ob =>
    cases ob with
    | some b =>
      rw [clean_proc_of_ok_some env cfg pcd0 idx0 b hcf, cropStep_mv, coreSteps_mv]
    | none =>
      rw [clean_proc_of_ok_none env cfg pcd0 idx0 hcf, coreSteps_mv]
  | error e =>
    rw [clean_proc_of_error env cfg pcd0 idx0 e hcf, coreSteps_mv]

theorem stepRun_mem_iff (t : StepTag) (evs : List LogEv) :
    LogEv.stepRun t ∈ evs ↔ t ∈ stepsOf evs := by
  unfold stepsOf
  rw [List.mem_filterMap]
  constructor
  · intro h
    exact ⟨LogEv.stepRun t, h, rfl⟩
  · rintro ⟨e, he, hfe⟩
    cases e with
    | stepRun t2 =>
      have ht : t2 = t := by simpa using hfe
      subst ht
      exact he
    | warnEmpty t2 => simp at hfe
    | keptInfo t2 n => simp at hfe
    | noClusters => simp at hfe
    | allNoise => simp at hfe
    | warnInvalidBounds => simp at hfe
    | gsDisabledVoxel => simp at hfe

theorem mem_if_singleton {α : Type} {a t : α} {c : Prop} [Decidable c]
    (h : a ∈ if c then [t] else []) : a = t := by
  split at h
  · simpa using h
  · simp at h

/-! ### Concrete inputs used by the witnesses and counterexamples -/

/-- CLI arguments with all four filters enabled (witness input). -/
def cliArgsW : CliArgs :=
  { dbscan := true, eps := 1, min_points := 3,
    radius_outlier := true, radius_nb := 2, radius := 1,
    stat_outlier := true, stat_nb := 2, stat_std := 1,
    crop := true, bounds := ⟨0, 0, 0, 1, 1, 1⟩ }

/-- CLI arguments requesting only a crop whose x bounds are inverted
(min_x = 1 > 0 = max_x). -/
def cliArgsInvertedCrop : CliArgs :=
  { dbscan := false, eps := 1, min_points := 3,
    radius_outlier := false, radius_nb := 2, radius := 1,
    stat_outlier := false, stat_nb := 2, stat_std := 1,
    crop := true, bounds := ⟨1, 0, 0, 0, 1, 1⟩ }

/-- GUI configuration with every step enabled, GS mode off, voxel size 1,
and valid crop bounds (witness input). -/
def guiCfgW : GuiCfg :=
  { gs_mode := false, voxel_size := 1, use_rad := true, rad_nb := 2, rad_r := 1,
    use_stat := true, stat_nb := 2, stat_std := 1, keep_largest := true,
    db_eps := 1, db_minpts := 3,
    crop_fields := ⟨.num 0, .num 0, .num 0, .num 1, .num 1, .num 1⟩ }

/-- Same configuration but with inverted x crop bounds (min_x = 1 > 0 =
max_x). -/
def guiCfgInvertedCrop : GuiCfg :=
  { guiCfgW with crop_fields := ⟨.num 1, .num 0, .num 0, .num 0, .num 1, .num 1⟩ }

/-- One-point working state (witness input). -/
def sW : PipeState :=
  { pcd := [(0, 0, 0)], idx := [0], mapping_valid := true, progress := 0, log := [] }

/-- Crop box that excludes the origin (x range [1, 0] is empty). -/
def boundsEmptyW : Bounds := ⟨1, 0, 0, 0, 1, 1⟩

/-- GUI app state with a cleaned one-point selection whose mapping is
broken (witness input). -/
def stMappingBroken : NukerState Nat :=
  { pcd_current := [(0, 0, 0)], idx_current := [0], idx_cleaned := some [0],
    mapping_valid_cleaned := false, vertex_data0 := [7], var_rad_r := 0,
    var_db_eps := 0, var_db_minpts := 0 }

/-- GUI app state before the advisor runs (counterexample input). -/
def stAdvisor : NukerState Nat :=
  { pcd_current := [(0, 0, 0)], idx_current := [0], idx_cleaned := none,
    mapping_valid_cleaned := true, vertex_data0 := [7], var_rad_r := 0,
    var_db_eps := 0, var_db_minpts := 0 }

/-- Caller-supplied CLI values: `--min-points 50` given explicitly, with
the value equal to the parser default. -/
def explicitDefaultEq : ArgKey → Option ArgVal :=
  fun k => if k = ArgKey.min_points then some (ArgVal.int 50) else none

/-- Caller-supplied CLI values: `--radius-nb 5`, different from the parser
default 16. -/
def explicitNonDefault : ArgKey → Option ArgVal :=
  fun k => if k = ArgKey.radius_nb then some (ArgVal.int 5) else none

/-- One-point input cloud (witness input). -/
def pcdW : List Point := [(0, 0, 0)]

/-- One-row attribute table (witness input; rows are opaque). -/
def rowsW : List Nat := [7]

/-! ### Claim theorems -/

/-- C1: for every run from an N-point input with identity index mapping
`0..N-1` — both the CLI `main` filter sequence and the GUI `_clean_proc` —
the final kept-index sequence is a strictly increasing subsequence of
`0..N-1` (formalised as a `Sublist` of `List.range N`), and the GS-safe
export emits exactly the original attribute rows at those indices in
ascending index order (`gather rows idxF`; the writers' internal re-sort
is the identity on the already-sorted index list, and rows are opaque so
every original field is intact). -/
theorem C1_kept_indices_and_export (env : FilterEnv) (hw : env.Wf) (a : CliArgs)
    (cfg : GuiCfg) (pcd0 : List Point) {Row : Type} (rows : List Row) :
    (List.Sublist (cli_run env a pcd0).idx (List.range pcd0.length)
      ∧ save_ply_gs_safe rows (cli_run env a pcd0).idx
          = gather rows (cli_run env a pcd0).idx)
    ∧ (List.Sublist (clean_proc env cfg pcd0 (List.range pcd0.length)).idx
          (List.range pcd0.length)
      ∧ ∀ out, write_gs_preserving rows
            (clean_proc env cfg pcd0 (List.range pcd0.length)).idx = Except.ok out
          → out = gather rows (clean_proc env cfg pcd0 (List.range pcd0.length)).idx) := by
  have hcli := cli_run_idx_sublist env hw a pcd0
  have hgui := clean_proc_idx_sublist env hw cfg pcd0 (List.range pcd0.length)
  have hscli : (cli_run env a pcd0).idx.Pairwise (· < ·) :=
    (List.pairwise_lt_range pcd0.length).sublist hcli
  have hsgui : (clean_proc env cfg pcd0 (List.range pcd0.length)).idx.Pairwise (· < ·) :=
    (List.pairwise_lt_range pcd0.length).sublist hgui
  refine ⟨⟨hcli, ?_⟩, hgui, ?_⟩
  · unfold save_ply_gs_safe
    rw [sortAsc_of_pairwise_lt _ hscli]
  · intro out hout
    unfold write_gs_preserving at hout
    split at hout
    · exact absurd hout (by simp)
    · rw [sortAsc_of_pairwise_lt _ hsgui] at hout
      simp only [Except.ok.injEq] at hout
      exact hout.symm

theorem C1_witness :
    envRejectAll.Wf
    ∧ (List.Sublist (cli_run envRejectAll cliArgsW pcdW).idx (List.range pcdW.length)
       ∧ save_ply_gs_safe rowsW (cli_run envRejectAll cliArgsW pcdW).idx
           = gather rowsW (cli_run envRejectAll cliArgsW pcdW).idx)
    ∧ (List.Sublist (clean_proc envRejectAll guiCfgW pcdW (List.range pcdW.length)).idx
          (List.range pcdW.length)
       ∧ ∀ out, write_gs_preserving rowsW
             (clean_proc envRejectAll guiCfgW pcdW (List.range pcdW.length)).idx
             = Except.ok out
           → out = gather rowsW
               (clean_proc envRejectAll guiCfgW pcdW (List.range pcdW.length)).idx) :=
  ⟨envRejectAll_wf,
   C1_kept_indices_and_export envRejectAll envRejectAll_wf cliArgsW guiCfgW pcdW rowsW⟩

/-- C2: each of the four rollback-guarded steps (radius outlier,
statistical outlier, crop, voxel), when its filter would leave zero
points, leaves the state identical (same cloud, same index mapping, same
`mapping_valid`) except for the appended `[STEP]`/`[WARN]` log lines, and
the pipeline continues: the following step still executes (last conjunct:
after a rejected radius step the statistical step still runs). -/
theorem C2_rejected_step_rolls_back (env : FilterEnv) (nb nbs : Nat) (r sds v : ℚ)
    (b : Bounds) (s : PipeState) :
    (env.radiusSel s.pcd nb r = [] →
       radiusStep env nb r s
         = { s with log := s.log ++ [.stepRun .radius, .warnEmpty .radius] })
    ∧ (env.statSel s.pcd nbs sds = [] →
       statStep env nbs sds s
         = { s with log := s.log ++ [.stepRun .stat, .warnEmpty .stat] })
    ∧ (idxsWhere (inBounds b) s.pcd = [] →
       cropStep b s
         = { s with log := s.log ++ [.stepRun .crop, .warnEmpty .crop] })
    ∧ (env.voxelDown s.pcd v = [] →
       voxelStep env v s
         = { s with log := s.log ++ [.stepRun .voxel, .warnEmpty .voxel] })
    ∧ (env.radiusSel s.pcd nb r = [] →
       stepsOf (statStep env nbs sds (radiusStep env nb r s)).log
         = stepsOf s.log ++ [StepTag.radius, StepTag.stat]) := by
  refine ⟨?_, ?_, ?_, ?_, ?_⟩
  · intro h
    exact selApply_empty _ _ _ h
  · intro h
    exact selApply_empty _ _ _ h
  · intro h
    exact selApply_empty _ _ _ h
  · intro h
    exact voxelStep_empty env v s h
  · intro _
    rw [statStep_steps, radiusStep_steps]
    simp

theorem C2_witness :
    envRejectAll.radiusSel sW.pcd 2 1 = []
    ∧ envRejectAll.statSel sW.pcd 2 1 = []
    ∧ idxsWhere (inBounds boundsEmptyW) sW.pcd = []
    ∧ envRejectAll.voxelDown sW.pcd 1 = []
    ∧ radiusStep envRejectAll 2 1 sW
        = { sW with log := sW.log ++ [.stepRun .radius, .warnEmpty .radius] }
    ∧ statStep envRejectAll 2 1 sW
        = { sW with log := sW.log ++ [.stepRun .stat, .warnEmpty .stat] }
    ∧ cropStep boundsEmptyW sW
        = { sW with log := sW.log ++ [.stepRun .crop, .warnEmpty .crop] }
    ∧ voxelStep envRejectAll 1 sW
        = { sW with log := sW.log ++ [.stepRun .voxel, .warnEmpty .voxel] } := by
  have h := C2_rejected_step_rolls_back envRejectAll 2 2 1 1 1 boundsEmptyW sW
  exact ⟨rfl, rfl, by decide, rfl, h.1 rfl, h.2.1 rfl, h.2.2.1 (by decide), h.2.2.2.1 rfl⟩

/-- C3: every non-voxel step preserves `mapping_valid`; a rejected voxel
step (empty result) preserves it too; and a run whose voxel step applies
(GS mode off, positive voxel size, nonempty voxel result) ends with
`mapping_valid = false` — no later step of the run can restore it. -/
theorem C3_voxel_invalidates_mapping (env : FilterEnv) (cfg : GuiCfg)
    (pcd0 : List Point) (idx0 : List Nat) :
    (∀ s nb r, (radiusStep env nb r s).mapping_valid = s.mapping_valid)
    ∧ (∀ s nb sd, (statStep env nb sd s).mapping_valid = s.mapping_valid)
    ∧ (∀ s eps mp, (dbscanStepGui env eps mp s).mapping_valid = s.mapping_valid)
    ∧ (∀ s b, (cropStep b s).mapping_valid = s.mapping_valid)
    ∧ (∀ s v, env.voxelDown s.pcd v = [] →
        (voxelStep env v s).mapping_valid = s.mapping_valid)
    ∧ (cfg.gs_mode = false → 0 < cfg.voxel_size →
        env.voxelDown pcd0 cfg.voxel_size ≠ [] →
        (clean_proc env cfg pcd0 idx0).mapping_valid = false) := by
  refine ⟨fun s nb r => radiusStep_mv env nb r s,
          fun s nb sd => statStep_mv env nb sd s,
          fun s eps mp => dbscanStepGui_mv env eps mp s,
          fun s b => cropStep_mv b s, ?_, ?_⟩
  · intro s v h
    rw [voxelStep_empty env v s h]
  · intro hgs hv hne
    have heff : effVoxel cfg = cfg.voxel_size := by
      unfold effVoxel
      rw [hgs]
      simp
    have hd : decide (0 < effVoxel cfg) = true := by
      rw [heff]
      exact decide_eq_true hv
    rw [clean_proc_mv, hd]
    show (voxelStep env (effVoxel cfg) (cleanInit cfg pcd0 idx0)).mapping_valid = false
    apply voxelStep_mv_applied
    show env.voxelDown pcd0 (effVoxel cfg) ≠ []
    rw [heff]
    exact hne

theorem C3_witness :
    guiCfgW.gs_mode = false
    ∧ 0 < guiCfgW.voxel_size
    ∧ envId.voxelDown pcdW guiCfgW.voxel_size ≠ []
    ∧ (clean_proc envId guiCfgW pcdW [0]).mapping_valid = false := by
  refine ⟨rfl, by decide, by decide, ?_⟩
  exact (C3_voxel_invalidates_mapping envId guiCfgW pcdW [0]).2.2.2.2.2
    rfl (by decide) (by decide)

/-- C4 counterexample: a CLI run with cluster, radius, statistical and
crop all enabled executes the cluster step first — the executed order is
[cluster, radius, stat, crop], not the [radius, stat, cluster, crop] the
claimed fixed policy order (voxel → radius → statistical → cluster → crop)
would give for these enabled steps. -/
theorem C4_counterexample :
    stepsOf (cli_run envRejectAll cliArgsW pcdW).log
      = [StepTag.cluster, StepTag.radius, StepTag.stat, StepTag.crop]
    ∧ [StepTag.cluster, StepTag.radius, StepTag.stat, StepTag.crop]
      ≠ [StepTag.radius, StepTag.stat, StepTag.cluster, StepTag.crop] :=
  ⟨by decide, by decide⟩

/-- C4 amended: the GUI `_clean_proc` executes its enabled steps in the
fixed order voxel → radius → statistical → cluster → crop, while the CLI
`main` executes cluster → radius → statistical → crop (it has no voxel
step and runs the cluster filter first). -/
theorem C4_amended_step_order (env : FilterEnv) (cfg : GuiCfg)
    (pcd0 pcd1 : List Point) (idx0 : List Nat) (a : CliArgs) :
    stepsOf (clean_proc env cfg pcd0 idx0).log
      = (if cfg.gs_mode = false ∧ 0 < cfg.voxel_size then [StepTag.voxel] else [])
        ++ (if cfg.use_rad then [StepTag.radius] else [])
        ++ (if cfg.use_stat then [StepTag.stat] else [])
        ++ (if cfg.keep_largest then [StepTag.cluster] else [])
        ++ (match getBoundsFromEntries cfg.crop_fields with
            | .ok (some _) => [StepTag.crop]
            | _ => [])
    ∧ stepsOf (cli_run env a pcd1).log
      = (if a.dbscan then [StepTag.cluster] else [])
        ++ (if a.radius_outlier then [StepTag.radius] else [])
        ++ (if a.stat_outlier then [StepTag.stat] else [])
        ++ (if a.crop then [StepTag.crop] else []) := by
  constructor
  · have hiff : (decide (0 < effVoxel cfg) = true)
        ↔ (cfg.gs_mode = false ∧ 0 < cfg.voxel_size) := by
      rw [decide_eq_true_iff]
      exact effVoxel_pos_iff cfg
    rw [clean_proc_stepsOf, if_congr hiff rfl rfl]
  · exact cli_run_stepsOf env a pcd1

/-- C5: among labels ≥ 0 the winning label has the maximum count (counts
taken in the non-noise array `labels[labels >= 0]`, which for a label
l ≥ 0 equals its point count), ties broken by the lowest label value; and
when no non-noise label exists the CLI cluster filter returns its input
cloud and index mapping unchanged as an explicit no-op (a `noClusters`
log event, not a `warnEmpty` rejection). -/
theorem C5_largest_cluster_selection (labels : List Int) (env : FilterEnv)
    (eps : ℚ) (mp : Nat) (s : PipeState)
    (hnn : labels.filter (fun l => decide (0 ≤ l)) ≠ []) :
    (bestLabel labels ∈ labels.filter (fun l => decide (0 ≤ l))
     ∧ (∀ l ∈ labels.filter (fun l => decide (0 ≤ l)),
         (labels.filter (fun l => decide (0 ≤ l))).count l
           ≤ (labels.filter (fun l => decide (0 ≤ l))).count (bestLabel labels))
     ∧ (∀ l ∈ labels.filter (fun l => decide (0 ≤ l)),
         (labels.filter (fun l => decide (0 ≤ l))).count l
           = (labels.filter (fun l => decide (0 ≤ l))).count (bestLabel labels)
         → bestLabel labels ≤ l))
    ∧ ((∀ l ∈ env.dbscan s.pcd eps mp, l < 0) →
        cliDbscanStep env eps mp s
          = { s with log := s.log ++ [.stepRun .cluster, .noClusters] }) := by
  constructor
  · exact bestOf_spec _ hnn
  · intro hneg
    cases hd : env.dbscan s.pcd eps mp with
    | nil =>
      simp only [cliDbscanStep, hd]
    | cons l0 ls =>
      rw [hd] at hneg
      have hmax : listMax l0 ls < 0 := by
        refine listMax_neg l0 ls ?_
        rintro x (rfl | hx)
        · exact hneg x (List.mem_cons_self x ls)
        · exact hneg x (List.mem_cons_of_mem l0 hx)
      simp only [cliDbscanStep, hd]
      rw [if_pos hmax]

theorem C5_witness :
    (([0, 0, 1, -1] : List Int).filter (fun l => decide (0 ≤ l)) ≠ [])
    ∧ (∀ l ∈ envRejectAll.dbscan sW.pcd 1 3, l < 0)
    ∧ bestLabel [0, 0, 1, -1] = 0
    ∧ cliDbscanStep envRejectAll 1 3 sW
        = { sW with log := sW.log ++ [.stepRun .cluster, .noClusters] } := by
  have h := C5_largest_cluster_selection [0, 0, 1, -1] envRejectAll 1 3 sW (by decide)
  exact ⟨by decide, by decide, by decide, h.2 (by decide)⟩

/-- C6: when the cleaned result's `mapping_valid` flag is false, the
GS-safe export of the CLEANED result refuses (returns the
re-run-without-voxel warning outcome before any dialog or write) and
leaves the whole application state unchanged. -/
theorem C6_gs_export_refuses_without_mapping {Row : Type} (st : NukerState Row)
    (idx : List Nat) (hidx : st.idx_cleaned = some idx)
    (hmv : st.mapping_valid_cleaned = false) :
    save_cleaned_as_gs st = (st, SaveOutcome.refuseMappingInvalid) := by
  unfold save_cleaned_as_gs
  rw [hidx]
  show (if st.mapping_valid_cleaned = false then (st, SaveOutcome.refuseMappingInvalid)
        else _) = _
  rw [if_pos hmv]

theorem C6_witness :
    stMappingBroken.idx_cleaned = some [0]
    ∧ stMappingBroken.mapping_valid_cleaned = false
    ∧ save_cleaned_as_gs stMappingBroken
        = (stMappingBroken, SaveOutcome.refuseMappingInvalid) :=
  ⟨rfl, rfl, C6_gs_export_refuses_without_mapping stMappingBroken [0] rfl rfl⟩

/-- C7 counterexample: in the CLI, crop is requested with min_x = 1 > 0 =
max_x (violating min < max on the x axis), yet no configuration error is
reported before the step — the crop step executes (a `stepRun crop`
event), and its empty result is handled as a rejection with rollback
(a `warnEmpty crop` event, index mapping unchanged). -/
theorem C7_counterexample :
    ¬ cliArgsInvertedCrop.bounds.min_x < cliArgsInvertedCrop.bounds.max_x
    ∧ LogEv.stepRun StepTag.crop ∈ (cli_run envRejectAll cliArgsInvertedCrop pcdW).log
    ∧ LogEv.warnEmpty StepTag.crop ∈ (cli_run envRejectAll cliArgsInvertedCrop pcdW).log
    ∧ LogEv.warnInvalidBounds ∉ (cli_run envRejectAll cliArgsInvertedCrop pcdW).log
    ∧ (cli_run envRejectAll cliArgsInvertedCrop pcdW).idx = [0] := by
  refine ⟨by decide, by decide, by decide, by decide, by decide⟩

/-- C7 amended: in the GUI `_clean_proc`, crop bounds that are all numeric
but violate min < max on some axis raise the configuration error in
`_get_bounds_from_entries`; the warning is the first log event of the run
(reported before any step executes) and no crop step runs in that run.
The CLI performs no such validation (see the counterexample). -/
theorem C7_amended_gui_bounds_checked_before_run (env : FilterEnv) (cfg : GuiCfg)
    (pcd0 : List Point) (idx0 : List Nat) (qa qb qc qd qe qf : ℚ)
    (hfields : cfg.crop_fields = ⟨.num qa, .num qb, .num qc, .num qd, .num qe, .num qf⟩)
    (hviol : ¬(qa < qd ∧ qb < qe ∧ qc < qf)) :
    getBoundsFromEntries cfg.crop_fields = .error .minMaxViolation
    ∧ (clean_proc env cfg pcd0 idx0).log.head? = some LogEv.warnInvalidBounds
    ∧ LogEv.stepRun StepTag.crop ∉ (clean_proc env cfg pcd0 idx0).log := by
  have hge : getBoundsFromEntries cfg.crop_fields = .error .minMaxViolation := by
    rw [hfields]
    simp [getBoundsFromEntries, hviol]
  refine ⟨hge, ?_, ?_⟩
  · have hclean := clean_proc_of_error env cfg pcd0 idx0 _ hge
    obtain ⟨dd, hd⟩ := coreSteps_log_extend env cfg (cleanInit cfg pcd0 idx0)
    have hlog0 : (cleanInit cfg pcd0 idx0).log
        = LogEv.warnInvalidBounds
          :: (if cfg.gs_mode && decide (0 < cfg.voxel_size)
              then [LogEv.gsDisabledVoxel] else []) := by
      unfold cleanInit
      rw [hge]
      rfl
    rw [hclean, hd, hlog0]
    rfl
  · intro hcon
    rw [stepRun_mem_iff] at hcon
    rw [clean_proc_stepsOf, hge] at hcon
    simp only [List.mem_append] at hcon
    rcases hcon with (((h1 | h2) | h3) | h4) | h5
    · exact absurd (mem_if_singleton h1) (by decide)
    · exact absurd (mem_if_singleton h2) (by decide)
    · exact absurd (mem_if_singleton h3) (by decide)
    · exact absurd (mem_if_singleton h4) (by decide)
    · simp at h5

theorem C7_witness :
    guiCfgInvertedCrop.crop_fields
      = ⟨.num 1, .num 0, .num 0, .num 0, .num 1, .num 1⟩
    ∧ ¬((1 : ℚ) < 0 ∧ (0 : ℚ) < 1 ∧ (0 : ℚ) < 1)
    ∧ getBoundsFromEntries guiCfgInvertedCrop.crop_fields
        = .error .minMaxViolation
    ∧ (clean_proc envRejectAll guiCfgInvertedCrop pcdW [0]).log.head?
        = some LogEv.warnInvalidBounds
    ∧ LogEv.stepRun StepTag.crop
        ∉ (clean_proc envRejectAll guiCfgInvertedCrop pcdW [0]).log := by
  have h := C7_amended_gui_bounds_checked_before_run envRejectAll guiCfgInvertedCrop
    pcdW [0] 1 0 0 0 1 1 rfl (by decide)
  exact ⟨rfl, by decide, h.1, h.2.1, h.2.2⟩

/-- C8 counterexample: `--min-points 50` supplied explicitly (equal to the
parser default) together with a preset containing `min_points: 99` — the
preset overrides the explicitly supplied value, because the merge loop can
only compare the current value against the default. -/
theorem C8_counterexample :
    explicitDefaultEq ArgKey.min_points = some (ArgVal.int 50)
    ∧ argDefault ArgKey.min_points = ArgVal.int 50
    ∧ applyPreset (resolveArgs explicitDefaultEq)
        [(ArgKey.min_points, ArgVal.int 99)] ArgKey.min_points = ArgVal.int 99
    ∧ ArgVal.int 99 ≠ ArgVal.int 50 := by
  refine ⟨by decide, by decide, by decide, by decide⟩

/-- C8 amended: a caller-supplied value that differs from its parser
default always survives preset application unchanged (an explicit value
equal to the default is indistinguishable from an unset parameter and can
be overridden, as the counterexample shows). -/
theorem C8_amended_nondefault_explicit_wins (explicit : ArgKey → Option ArgVal)
    (preset : List (ArgKey × ArgVal)) (k : ArgKey) (v : ArgVal)
    (hv : explicit k = some v) (hne : v ≠ argDefault k) :
    applyPreset (resolveArgs explicit) preset k = v := by
  have hstart : resolveArgs explicit k = v := by
    simp [resolveArgs, hv]
  suffices h : ∀ args : ArgKey → ArgVal, args k = v → applyPreset args preset k = v from
    h _ hstart
  intro args
  induction preset generalizing args with
  | nil => exact fun h => h
  | cons kv ps ih =>
    intro h
    have hstep : applyPreset args (kv :: ps)
        = applyPreset
            (if args kv.1 = argDefault kv.1 then Function.update args kv.1 kv.2 else args)
            ps := rfl
    rw [hstep]
    apply ih
    by_cases hc : args kv.1 = argDefault kv.1
    · rw [if_pos hc]
      by_cases hk : kv.1 = k
      · subst hk
        rw [h] at hc
        exact absurd hc hne
      · rw [Function.update_noteq (Ne.symm hk)]
        exact h
    · rw [if_neg hc]
      exact h

theorem C8_witness :
    explicitNonDefault ArgKey.radius_nb = some (ArgVal.int 5)
    ∧ ArgVal.int 5 ≠ argDefault ArgKey.radius_nb
    ∧ applyPreset (resolveArgs explicitNonDefault)
        [(ArgKey.radius_nb, ArgVal.int 7)] ArgKey.radius_nb = ArgVal.int 5 := by
  refine ⟨by decide, by decide, ?_⟩
  exact C8_amended_nondefault_explicit_wins explicitNonDefault
    [(ArgKey.radius_nb, ArgVal.int 7)] ArgKey.radius_nb (ArgVal.int 5) (by decide) (by decide)

/-- C9 counterexample: on a one-point cloud with one usable neighbor
distance, the advisor writes its suggestions into the radius, DBSCAN eps
and DBSCAN min_points configuration fields — it does mutate the filter
configuration. -/
theorem C9_counterexample :
    (autosuggest_params stAdvisor 8 [1]).1.var_rad_r ≠ stAdvisor.var_rad_r
    ∧ (autosuggest_params stAdvisor 8 [1]).1.var_db_eps ≠ stAdvisor.var_db_eps
    ∧ (autosuggest_params stAdvisor 8 [1]).1.var_db_minpts ≠ stAdvisor.var_db_minpts := by
  refine ⟨?_, ?_, ?_⟩ <;>
    norm_num [autosuggest_params, median, sortAsc, insOrd, stAdvisor]

/-- C9 amended: the advisor never mutates the point set or the index
mappings or the attribute table; with an empty cloud or no usable
distances it reports failure leaving the whole state unchanged; on
success it writes the suggested radius, eps and min_points into the
corresponding filter-configuration fields. -/
theorem C9_amended_advisor_frame {Row : Type} (st : NukerState Row) (k : Nat)
    (nn_dists : List ℚ) :
    (autosuggest_params st k nn_dists).1.pcd_current = st.pcd_current
    ∧ (autosuggest_params st k nn_dists).1.idx_current = st.idx_current
    ∧ (autosuggest_params st k nn_dists).1.idx_cleaned = st.idx_cleaned
    ∧ (autosuggest_params st k nn_dists).1.vertex_data0 = st.vertex_data0
    ∧ (nn_dists = [] → (autosuggest_params st k nn_dists).1 = st)
    ∧ (st.pcd_current ≠ [] → nn_dists ≠ [] →
        (autosuggest_params st k nn_dists).1.var_rad_r
            = max (median nn_dists * (5 / 2)) (1 / 1000000)
        ∧ (autosuggest_params st k nn_dists).1.var_db_eps
            = max (median nn_dists * 2) (1 / 1000000)
        ∧ (autosuggest_params st k nn_dists).1.var_db_minpts = max 8 k) := by
  by_cases h1 : st.pcd_current = []
  · have he : autosuggest_params st k nn_dists = (st, .noCloud) := by
      unfold autosuggest_params
      rw [if_pos h1]
    rw [he]
    exact ⟨rfl, rfl, rfl, rfl, fun _ => rfl, fun hc _ => absurd h1 hc⟩
  · by_cases h2 : nn_dists = []
    · have he : autosuggest_params st k nn_dists = (st, .failure) := by
        unfold autosuggest_params
        rw [if_neg h1, if_pos h2]
      rw [he]
      exact ⟨rfl, rfl, rfl, rfl, fun _ => rfl, fun _ hd => absurd h2 hd⟩
    · have he : autosuggest_params st k nn_dists
          = ({ st with var_rad_r := max (median nn_dists * (5 / 2)) (1 / 1000000),
                       var_db_eps := max (median nn_dists * 2) (1 / 1000000),
                       var_db_minpts := max 8 k },
             .suggested (max (median nn_dists * (5 / 2)) (1 / 1000000))
               (max (median nn_dists * 2) (1 / 1000000)) (max 8 k)) := by
        unfold autosuggest_params
        rw [if_neg h1, if_neg h2]
      rw [he]
      exact ⟨rfl, rfl, rfl, rfl, fun hc => absurd hc h2, fun _ _ => ⟨rfl, rfl, rfl⟩⟩

theorem C9_witness :
    stAdvisor.pcd_current ≠ []
    ∧ ([1] : List ℚ) ≠ []
    ∧ (autosuggest_params stAdvisor 8 [1]).1.var_rad_r
        = max (median [1] * (5 / 2)) (1 / 1000000)
    ∧ (autosuggest_params stAdvisor 8 [1]).1.pcd_current = stAdvisor.pcd_current := by
  have h := C9_amended_advisor_frame stAdvisor 8 [1]
  exact ⟨by decide, by decide, (h.2.2.2.2.2 (by decide) (by decide)).1, h.1⟩

/-- C10: every filter step preserves the nonemptiness invariant `Inv`
(kept indices nonempty, index mapping at least as long as the cloud), so
for any run from a nonempty input both pipelines end with a nonempty
kept-index array and the empty-selection error branch of
`_write_gs_preserving` is unreachable for the result of a completed run. -/
theorem C10_nonempty_selection (env : FilterEnv) (hw : env.Wf) (a : CliArgs)
    (cfg : GuiCfg) (pcd0 : List Point) {Row : Type} (rows : List Row)
    (hne : pcd0 ≠ []) :
    (∀ s nb r, Inv s → Inv (radiusStep env nb r s))
    ∧ (∀ s nb sd, Inv s → Inv (statStep env nb sd s))
    ∧ (∀ s b, Inv s → Inv (cropStep b s))
    ∧ (∀ s eps mp, Inv s → Inv (cliDbscanStep env eps mp s))
    ∧ (∀ s eps mp, Inv s → Inv (dbscanStepGui env eps mp s))
    ∧ (∀ s v, Inv s → Inv (voxelStep env v s))
    ∧ (cli_run env a pcd0).idx ≠ []
    ∧ (clean_proc env cfg pcd0 (List.range pcd0.length)).idx ≠ []
    ∧ ∃ outRows, write_gs_preserving rows
        (clean_proc env cfg pcd0 (List.range pcd0.length)).idx = Except.ok outRows := by
  have hr : (List.range pcd0.length) ≠ [] := by
    simp only [ne_eq, List.range_eq_nil]
    intro hcon
    exact hne (List.eq_nil_of_length_eq_zero hcon)
  have hgui := clean_proc_inv env hw cfg pcd0 (List.range pcd0.length) hr (by simp)
  refine ⟨fun s nb r hs => radiusStep_inv env hw nb r s hs,
          fun s nb sd hs => statStep_inv env hw nb sd s hs,
          fun s b hs => cropStep_inv b s hs,
          fun s eps mp hs => cliDbscanStep_inv env eps mp s (hw.2.2.1 s.pcd eps mp) hs,
          fun s eps mp hs => dbscanStepGui_inv env eps mp s (hw.2.2.1 s.pcd eps mp) hs,
          fun s v hs => voxelStep_inv env v s (hw.2.2.2 s.pcd v) hs,
          (cli_run_inv env hw a pcd0 hne).1, hgui.1, ?_⟩
  unfold write_gs_preserving
  rw [if_neg hgui.1]
  exact ⟨_, rfl⟩

theorem C10_witness :
    envRejectAll.Wf
    ∧ pcdW ≠ []
    ∧ (cli_run envRejectAll cliArgsW pcdW).idx ≠ []
    ∧ (clean_proc envRejectAll guiCfgW pcdW (List.range pcdW.length)).idx ≠ []
    ∧ ∃ outRows, write_gs_preserving rowsW
        (clean_proc envRejectAll guiCfgW pcdW (List.range pcdW.length)).idx
        = Except.ok outRows := by
  have h := C10_nonempty_selection envRejectAll envRejectAll_wf cliArgsW guiCfgW
    pcdW rowsW (by decide)
  exact ⟨envRejectAll_wf, by decide, h.2.2.2.2.2.2.1, h.2.2.2.2.2.2.2.1, h.2.2.2.2.2.2.2.2⟩

end PointNuker
